import Mathlib

/-!
Verification development for the DynamicAgentRANPGE evaluation backend.

The definitions below are shallow embeddings of the Python functions in
`app/services/evaluation/evaluation_service.py` and
`app/services/evaluation/csv_evaluation_service.py` (plus the small string
helpers they rely on).  Python floats are modelled as rationals, Python
exceptions as `Option`/`Except`, Python's `random` module as explicit
decision oracles (a shuffle function and a choice index per call), and the
JSON parser (`json.loads`) as an executable parser over the JSON fragment
the services exchange.
-/

/-- Increment, in order, the entries of `counts` at the positions listed in
`idxs` (the model of the Python loop
`for i in range(remainder): floored[residuals[i][0]] += 1`). -/
def bumpIndices (counts : List ℤ) (idxs : List ℕ) : List ℤ :=
  idxs.foldl (fun acc i => acc.set i (acc.getD i 0 + 1)) counts

/-- Largest-remainder apportionment, embedded from
`distribute_question_counts` (identical copies live in
`evaluation_service.py:196` and `csv_evaluation_service.py:87`).
Python's stable descending sort `residuals.sort(key=..., reverse=True)` is
modelled by a stable insertion sort on the non-strict descending relation.
The Python loop indexes `residuals[i]` for `i < remainder`; when
`remainder` exceeds the number of weights this raises `IndexError`,
modelled here by `none`. -/
def distribute_question_counts (num_questions : ℕ) (weights : List ℚ) : Option (List ℤ) :=
  let raw_counts := weights.map (fun w => w * (num_questions : ℚ))
  let floored := raw_counts.map (fun rc => ⌊rc⌋)
  let remainder : ℤ := (num_questions : ℤ) - floored.sum
  let residuals :=
    ((List.zip raw_counts floored).enum.map
      (fun p => (p.1, p.2.1 - (p.2.2 : ℚ)))).insertionSort (fun a b => b.2 ≤ a.2)
  if remainder ≤ (residuals.length : ℤ) then
    some (bumpIndices floored ((residuals.take remainder.toNat).map Prod.fst))
  else none

example : distribute_question_counts 10 [(7:ℚ)/10, 3/10] = some [7, 3] := by
  norm_num [distribute_question_counts, bumpIndices, List.insertionSort, List.orderedInsert]
example : distribute_question_counts 7 [(1:ℚ)/2, 1/2] = some [4, 3] := by
  norm_num [distribute_question_counts, bumpIndices, List.insertionSort, List.orderedInsert]

/-- C1 (counterexample): the weight pair `w1 = w2 = 1025/2048` satisfies the
spec's tolerance `|w1 + w2 - 1| ≤ 0.001`, yet for `num_questions = 2048` the
code floors `1025` for each weight, computes a negative remainder, skips the
correction loop and returns `[1025, 1025]`, whose sum `2050` is not `2048`. -/
theorem distribute_counts_tolerance_counterexample :
    |(1025:ℚ)/2048 + 1025/2048 - 1| ≤ 1/1000 ∧
    distribute_question_counts 2048 [(1025:ℚ)/2048, 1025/2048] = some [1025, 1025] ∧
    (1025 + 1025 : ℤ) ≠ 2048 := by
  refine ⟨by norm_num [abs_le], ?_, by norm_num⟩
  norm_num [distribute_question_counts, bumpIndices, List.insertionSort, List.orderedInsert]
  decide

theorem distribute_two_exact (N : ℕ) (w1 w2 : ℚ)
    (h1 : 0 ≤ w1) (h2 : 0 ≤ w2) (hsum : w1 + w2 = 1) :
    ∃ a b : ℤ, distribute_question_counts N [w1, w2] = some [a, b] ∧
      0 ≤ a ∧ 0 ≤ b ∧ a + b = N := by
  have hr : w1 * (N : ℚ) + w2 * (N : ℚ) = (N : ℚ) := by
    rw [← add_mul, hsum, one_mul]
  set r1 := w1 * (N : ℚ) with hr1
  set r2 := w2 * (N : ℚ) with hr2
  have hr1n : 0 ≤ r1 := by positivity
  have hr2n : 0 ≤ r2 := by positivity
  have hf1 : 0 ≤ ⌊r1⌋ := Int.floor_nonneg.2 hr1n
  have hf2 : 0 ≤ ⌊r2⌋ := Int.floor_nonneg.2 hr2n
  have hle : ⌊r1⌋ + ⌊r2⌋ ≤ (N : ℤ) := by
    have : ((⌊r1⌋ + ⌊r2⌋ : ℤ) : ℚ) ≤ (N : ℚ) := by
      push_cast
      calc ((⌊r1⌋ : ℚ) + (⌊r2⌋ : ℚ)) ≤ r1 + r2 :=
            add_le_add (Int.floor_le r1) (Int.floor_le r2)
        _ = (N : ℚ) := hr
    exact_mod_cast this
  have hgt : (N : ℤ) - 2 < ⌊r1⌋ + ⌊r2⌋ := by
    have : (N : ℚ) - 2 < ((⌊r1⌋ + ⌊r2⌋ : ℤ) : ℚ) := by
      push_cast
      have a1 : r1 - 1 < (⌊r1⌋ : ℚ) := Int.sub_one_lt_floor r1
      have a2 : r2 - 1 < (⌊r2⌋ : ℚ) := Int.sub_one_lt_floor r2
      linarith [hr]
    exact_mod_cast this
  have hrem : (N : ℤ) - (⌊r1⌋ + ⌊r2⌋) = 0 ∨ (N : ℤ) - (⌊r1⌋ + ⌊r2⌋) = 1 := by omega
  simp only [distribute_question_counts, List.map_cons, List.map_nil, List.zip_cons_cons,
    List.zip_nil_right, List.enum, List.enumFrom, List.sum_cons, List.sum_nil,
    List.insertionSort, List.orderedInsert, ← hr1, ← hr2]
  rcases hrem with h0 | h1'
  · have hc : ((N : ℤ) - (⌊r1⌋ + (⌊r2⌋ + 0))) = 0 := by omega
    rw [hc]
    refine ⟨⌊r1⌋, ⌊r2⌋, ?_, hf1, hf2, by omega⟩
    by_cases hcmp : Int.fract r2 ≤ Int.fract r1 <;>
      simp [hcmp, bumpIndices]
  · have hc : ((N : ℤ) - (⌊r1⌋ + (⌊r2⌋ + 0))) = 1 := by omega
    rw [hc]
    by_cases hcmp : Int.fract r2 ≤ Int.fract r1
    · refine ⟨⌊r1⌋ + 1, ⌊r2⌋, ?_, by omega, hf2, by omega⟩
      simp [hcmp, bumpIndices]
    · refine ⟨⌊r1⌋, ⌊r2⌋ + 1, ?_, hf1, by omega, by omega⟩
      simp [hcmp, bumpIndices]

/-- C1 (amended): when the two weights are non-negative and sum to exactly 1,
`distribute_question_counts` returns two non-negative integers whose sum is
exactly `num_questions`.  (The spec's `±0.001` tolerance is too weak: weights
inside the tolerance but not summing to 1 can make the totals drift, see the
counterexample.) -/
theorem distribute_counts_conserves_total (N : ℕ) (w1 w2 : ℚ)
    (h1 : 0 ≤ w1) (h2 : 0 ≤ w2) (hsum : w1 + w2 = 1) :
    ∃ a b : ℤ, distribute_question_counts N [w1, w2] = some [a, b] ∧
      0 ≤ a ∧ 0 ≤ b ∧ a + b = N :=
  distribute_two_exact N w1 w2 h1 h2 hsum

/-- C1 (witness): the spec's own example, `distribute_question_counts(10, [0.7, 0.3])`. -/
theorem distribute_counts_conserves_total_witness :
    ∃ a b : ℤ, distribute_question_counts 10 [(7:ℚ)/10, 3/10] = some [a, b] ∧
      0 ≤ a ∧ 0 ≤ b ∧ a + b = 10 :=
  distribute_counts_conserves_total 10 (7/10) (3/10) (by norm_num) (by norm_num) (by norm_num)

/-- Model of `random.choice(l)`: the oracle supplies an arbitrary natural
`k`, reduced modulo the list length so that every element is reachable;
`random.choice([])` raises `IndexError`, modelled as `none`. -/
def pyChoice (l : List String) (k : ℕ) : Option String := l[k % l.length]?

/-- The randomness consumed by one `TopicManager.get_next_topic` call:
the reshuffle used if the pool resets, and the `random.choice` draw. -/
structure TMDecision where
  shuf : List String → List String
  choice : ℕ

/-- State of `TopicManager` (`evaluation_service.py:29`). -/
structure TopicManager where
  original_topics : List String
  available_topics : List String
deriving DecidableEq

/-- `TopicManager.__init__`: copy the topics and shuffle the available pool
(`shuf0` is the constructor's `random.shuffle`). -/
def TopicManager.init (topics : List String) (shuf0 : List String → List String) :
    TopicManager :=
  { original_topics := topics, available_topics := shuf0 topics }

/-- `TopicManager.get_next_topic`: refill and reshuffle the pool when it is
empty, then draw `random.choice(available)` and remove the drawn topic. -/
def TopicManager.get_next_topic (s : TopicManager) (d : TMDecision) :
    Option (String × TopicManager) :=
  let avail := if s.available_topics.isEmpty then d.shuf s.original_topics
               else s.available_topics
  match pyChoice avail d.choice with
  | none => none
  | some t => some (t, { s with available_topics := avail.erase t })

/-- A sequence of `get_next_topic` calls, threading the manager state. -/
def TopicManager.run (s : TopicManager) :
    List TMDecision → Option (List String × TopicManager)
  | [] => some ([], s)
  | d :: ds =>
    match s.get_next_topic d with
    | none => none
    | some (t, s') =>
      match s'.run ds with
      | none => none
      | some (ts, s'') => some (t :: ts, s'')

theorem pyChoice_mem {l : List String} {k : ℕ} {t : String}
    (h : pyChoice l k = some t) : t ∈ l := by
  unfold pyChoice at h
  exact List.getElem?_mem h

theorem pyChoice_isSome {l : List String} (hl : l ≠ []) (k : ℕ) :
    ∃ t, pyChoice l k = some t := by
  have hlen : 0 < l.length := List.length_pos.2 hl
  have : k % l.length < l.length := Nat.mod_lt _ hlen
  unfold pyChoice
  exact ⟨l[k % l.length], List.getElem?_eq_some.2 ⟨this, rfl⟩⟩

/-- C3 (counterexample): over the two distinct topics `["a", "b"]` there is
a sequence of random choices along which two consecutive
`get_next_topic()` calls return the same topic: the pair straddling the
pool reset (`"a", "b", "b"`). -/
theorem topic_manager_adjacent_repeat_counterexample :
    ((TopicManager.init ["a", "b"] id).run
        [⟨id, 0⟩, ⟨id, 0⟩, ⟨id, 1⟩]).map Prod.fst = some ["a", "b", "b"] ∧
    (["a", "b"] : List String).Nodup := by
  constructor
  · rfl
  · decide

/-- C3 (amended): two consecutive draws can only coincide when the second
call resets the pool (or the topic set is a singleton): if the pool drawn
from is duplicate-free and the second call finds a non-empty pool, the two
topics differ.  (The spec's unconditional no-adjacent-repeat guarantee
fails across a pool reset, see the counterexample.) -/
theorem topic_manager_no_adjacent_repeat_without_reset
    (s s1 s2 : TopicManager) (d1 d2 : TMDecision) (t1 t2 : String)
    (hnd : s.available_topics.Nodup)
    (hond : s.original_topics.Nodup)
    (hperm : List.Perm (d1.shuf s.original_topics) s.original_topics)
    (h1 : s.get_next_topic d1 = some (t1, s1))
    (hne : s1.available_topics ≠ [])
    (h2 : s1.get_next_topic d2 = some (t2, s2)) :
    t2 ≠ t1 := by
  unfold TopicManager.get_next_topic at h1 h2
  dsimp only at h1 h2
  set avail1 := if s.available_topics.isEmpty then d1.shuf s.original_topics
                else s.available_topics with havail1
  have hnd1 : avail1.Nodup := by
    rw [havail1]
    split
    · exact hperm.nodup_iff.2 hond
    · exact hnd
  rcases hc1 : pyChoice avail1 d1.choice with _ | t
  · rw [hc1] at h1; exact absurd h1 (by simp)
  · rw [hc1] at h1
    simp only [Option.some.injEq, Prod.mk.injEq] at h1
    obtain ⟨ht1, hs1⟩ := h1
    have hs1avail : s1.available_topics = avail1.erase t1 := by
      rw [← hs1, ht1]
    have hnotmem : t1 ∉ s1.available_topics := by
      rw [hs1avail]; exact hnd1.not_mem_erase
    have hs1ne : ¬ s1.available_topics.isEmpty := by
      simpa [List.isEmpty_iff] using hne
    rw [if_neg hs1ne] at h2
    rcases hc2 : pyChoice s1.available_topics d2.choice with _ | t'
    · rw [hc2] at h2; exact absurd h2 (by simp)
    · rw [hc2] at h2
      simp only [Option.some.injEq, Prod.mk.injEq] at h2
      obtain ⟨ht2, -⟩ := h2
      intro heq
      apply hnotmem
      rw [← heq, ← ht2]
      exact pyChoice_mem hc2

/-- As long as the pool has at least as many topics as there are draws, no
reset occurs, each draw removes its topic, and the topics drawn together
with the remaining pool are a permutation of the starting pool. -/
theorem TopicManager.run_without_reset (ds : List TMDecision) :
    ∀ s : TopicManager, ds.length ≤ s.available_topics.length →
    ∃ ts s', s.run ds = some (ts, s') ∧
      List.Perm (ts ++ s'.available_topics) s.available_topics ∧
      s'.original_topics = s.original_topics ∧
      s'.available_topics.length = s.available_topics.length - ds.length := by
  induction ds with
  | nil => exact fun s _ => ⟨[], s, rfl, by simp, rfl, by simp⟩
  | cons d ds ih =>
    intro s hlen
    have hne : s.available_topics ≠ [] := by
      intro h
      rw [h] at hlen
      simp at hlen
    have hnotempty : ¬ s.available_topics.isEmpty := by
      simpa [List.isEmpty_iff] using hne
    obtain ⟨t, hc⟩ := pyChoice_isSome hne d.choice
    have htmem : t ∈ s.available_topics := pyChoice_mem hc
    have hstep : s.get_next_topic d =
        some (t, { s with available_topics := s.available_topics.erase t }) := by
      unfold TopicManager.get_next_topic
      dsimp only
      rw [if_neg hnotempty, hc]
    have herase_len : (s.available_topics.erase t).length =
        s.available_topics.length - 1 := List.length_erase_of_mem htmem
    obtain ⟨ts, s'', hrun, hperm, horig, hlen'⟩ :=
      ih { s with available_topics := s.available_topics.erase t }
        (by dsimp only
            rw [herase_len]
            simp only [List.length_cons] at hlen
            omega)
    refine ⟨t :: ts, s'', ?_, ?_, horig, ?_⟩
    · unfold TopicManager.run
      rw [hstep]
      dsimp only
      rw [hrun]
    · exact (hperm.cons t).trans (List.perm_cons_erase htmem).symm
    · dsimp only at hlen'
      rw [herase_len] at hlen'
      simp only [List.length_cons] at hlen ⊢
      omega

/-- C5: for a freshly constructed `TopicManager` over `N` duplicate-free
topics, any `N` draws (whatever the random choices, as long as the
constructor's shuffle is a true permutation) succeed and return each topic
exactly once. -/
theorem topic_manager_first_draws_permutation
    (topics : List String) (shuf0 : List String → List String)
    (hperm0 : List.Perm (shuf0 topics) topics) (hnd : topics.Nodup)
    (ds : List TMDecision) (hlen : ds.length = topics.length) :
    ∃ ts s', (TopicManager.init topics shuf0).run ds = some (ts, s') ∧
      List.Perm ts topics ∧ ts.Nodup := by
  have hlen0 : (TopicManager.init topics shuf0).available_topics.length = topics.length :=
    hperm0.length_eq
  obtain ⟨ts, s', hrun, hperm, -, hlen'⟩ :=
    TopicManager.run_without_reset ds (TopicManager.init topics shuf0) (by rw [hlen0, hlen])
  rw [hlen0, hlen, Nat.sub_self] at hlen'
  have hempty : s'.available_topics = [] := List.length_eq_zero.1 hlen'
  rw [hempty, List.append_nil] at hperm
  have hp : List.Perm ts topics := hperm.trans hperm0
  exact ⟨ts, s', hrun, hp, hp.nodup_iff.2 hnd⟩

/-- C5 (witness): two draws over `["x", "y"]` yield both topics exactly once. -/
theorem topic_manager_first_draws_permutation_witness :
    ∃ ts s', (TopicManager.init ["x", "y"] id).run [⟨id, 0⟩, ⟨id, 0⟩] = some (ts, s') ∧
      List.Perm ts ["x", "y"] ∧ ts.Nodup :=
  topic_manager_first_draws_permutation ["x", "y"] id (by decide) (by decide)
    [⟨id, 0⟩, ⟨id, 0⟩] (by decide)

/-- C3 (witness): concrete two-topic run in which the second draw does not
reset, hence differs from the first. -/
theorem topic_manager_no_adjacent_repeat_without_reset_witness :
    ("b" : String) ≠ "a" :=
  topic_manager_no_adjacent_repeat_without_reset
    (TopicManager.init ["a", "b"] id)
    ⟨["a", "b"], ["b"]⟩ ⟨["a", "b"], []⟩ ⟨id, 0⟩ ⟨id, 0⟩ "a" "b"
    (by decide) (by decide) (by decide) (by decide) (by decide) (by decide)

/-- The randomness consumed by one `PositioningTopicManager.get_next_topic`
call: the module-list reshuffle used if the rotation resets, the module
choice, and the decision forwarded to the chosen module's `TopicManager`. -/
structure PTMDecision where
  mshuf : List String → List String
  mchoice : ℕ
  tshuf : List String → List String
  tchoice : ℕ

/-- State of `PositioningTopicManager` (`evaluation_service.py:56`); Python
dicts are insertion-ordered, modelled as association lists. -/
structure PositioningTopicManager where
  modules_topics : List (String × List String)
  module_managers : List (String × TopicManager)
  used_modules : List String
  available_modules : List String
deriving DecidableEq

/-- Dict lookup in an association list (first matching key). -/
def alistGet (l : List (String × TopicManager)) (k : String) : Option TopicManager :=
  (l.find? (fun p => p.1 == k)).map Prod.snd

/-- Dict update of an existing key in an association list. -/
def alistSet (l : List (String × TopicManager)) (k : String) (v : TopicManager) :
    List (String × TopicManager) :=
  l.map (fun p => if p.1 == k then (k, v) else p)

/-- `PositioningTopicManager.__init__`: keep only modules with a non-empty
topic list, build one `TopicManager` per kept module (`tshuf0 i` is the
constructor shuffle of the `i`-th kept module), and shuffle the module
rotation list with `mshuf0`. -/
def PositioningTopicManager.init (modules_topics : List (String × List String))
    (tshuf0 : ℕ → List String → List String) (mshuf0 : List String → List String) :
    PositioningTopicManager :=
  let kept := modules_topics.filter (fun p => ¬ p.2.isEmpty)
  { modules_topics := kept
    module_managers := kept.enum.map
      (fun p => (p.2.1, TopicManager.init p.2.2 (tshuf0 p.1)))
    used_modules := []
    available_modules := mshuf0 (kept.map Prod.fst) }

/-- `PositioningTopicManager.get_next_topic`: raise when no module has
topics; otherwise draw a module from the not-yet-used rotation list (or
refill and reshuffle it when exhausted — note the reset branch does not
record the module in `used_modules`, mirroring the source), then delegate
to that module's `TopicManager`.  Returns the `(module, topic)` pair the
call selected. -/
def PositioningTopicManager.get_next_topic (s : PositioningTopicManager)
    (d : PTMDecision) : Option ((String × String) × PositioningTopicManager) :=
  if s.module_managers.isEmpty then none
  else
    let pick : Option (String × List String × List String) :=
      if ¬ s.available_modules.isEmpty then
        match pyChoice s.available_modules d.mchoice with
        | none => none
        | some m => some (m, s.available_modules.erase m, s.used_modules ++ [m])
      else
        let avail := d.mshuf (s.module_managers.map Prod.fst)
        match pyChoice avail d.mchoice with
        | none => none
        | some m => some (m, avail.erase m, s.used_modules)
    match pick with
    | none => none
    | some (m, avail', used') =>
      match alistGet s.module_managers m with
      | none => none
      | some tm =>
        match tm.get_next_topic ⟨d.tshuf, d.tchoice⟩ with
        | none => none
        | some (t, tm') =>
          some ((m, t),
            { s with available_modules := avail', used_modules := used',
                     module_managers := alistSet s.module_managers m tm' })

/-- A sequence of positioning draws, threading the manager state. -/
def PositioningTopicManager.run (s : PositioningTopicManager) :
    List PTMDecision → Option (List (String × String) × PositioningTopicManager)
  | [] => some ([], s)
  | d :: ds =>
    match s.get_next_topic d with
    | none => none
    | some (p, s') =>
      match s'.run ds with
      | none => none
      | some (ps, s'') => some (p :: ps, s'')

/-- C6 (counterexample): two modules `A`, `B` with one topic each
(`M = 2`).  Along the random choices below the module draws are
`A, B, B`: the window of `M = 2` consecutive draws starting at the second
draw contains module `B` twice and module `A` not at all, so the fairness
property fails for windows not aligned with rotation-cycle boundaries. -/
theorem positioning_window_fairness_counterexample :
    ((PositioningTopicManager.init [("A", ["a"]), ("B", ["b"])] (fun _ => id) id).run
        [⟨id, 0, id, 0⟩, ⟨id, 0, id, 0⟩, ⟨id, 1, id, 0⟩]).map
          (fun p => p.1.map Prod.fst) = some ["A", "B", "B"] ∧
    ¬ (List.take 2 (List.drop 1 ["A", "B", "B"])).Nodup := by
  constructor
  · rfl
  · decide

/-- A faithful model of `random.shuffle`: some permutation of its input. -/
def IsShuffler (f : List String → List String) : Prop :=
  ∀ l, List.Perm (f l) l

/-- The module names kept by `PositioningTopicManager.__init__` (those with
a non-empty topic list), in insertion order. -/
def keptKeys (modules_topics : List (String × List String)) : List String :=
  (modules_topics.filter (fun p => ¬ p.2.isEmpty)).map Prod.fst

theorem TopicManager.get_next_topic_total (s : TopicManager) (d : TMDecision)
    (horig : s.original_topics ≠ []) (hshuf : IsShuffler d.shuf) :
    ∃ t s', s.get_next_topic d = some (t, s') ∧
      s'.original_topics = s.original_topics := by
  unfold TopicManager.get_next_topic
  dsimp only
  set avail := if s.available_topics.isEmpty then d.shuf s.original_topics
               else s.available_topics with havail
  have hne : avail ≠ [] := by
    rw [havail]
    split
    · intro h
      have hp := hshuf s.original_topics
      rw [h] at hp
      exact horig hp.symm.eq_nil
    · rename_i hfull
      simpa [List.isEmpty_iff] using hfull
  obtain ⟨t, hc⟩ := pyChoice_isSome hne d.choice
  rw [hc]
  exact ⟨t, _, rfl, rfl⟩

theorem alistGet_total {l : List (String × TopicManager)} {m : String}
    (h : m ∈ l.map Prod.fst) : ∃ tm, alistGet l m = some tm ∧ (m, tm) ∈ l := by
  obtain ⟨p, hp, hfst⟩ := List.mem_map.1 h
  have hsome : (l.find? (fun q => q.1 == m)).isSome := by
    rw [List.find?_isSome]
    exact ⟨p, hp, by simp [hfst]⟩
  obtain ⟨q, hq⟩ := Option.isSome_iff_exists.1 hsome
  have hqm : q.1 = m := by
    have := List.find?_some hq
    simpa using this
  have hqmem : q ∈ l := List.mem_of_find?_eq_some hq
  refine ⟨q.2, ?_, ?_⟩
  · simp [alistGet, hq]
  · have : (m, q.2) = q := by
      rw [← hqm]
    rw [this]
    exact hqmem

theorem alistSet_map_fst (l : List (String × TopicManager)) (k : String)
    (v : TopicManager) : (alistSet l k v).map Prod.fst = l.map Prod.fst := by
  unfold alistSet
  rw [List.map_map]
  apply List.map_congr_left
  intro p _
  by_cases h : p.1 = k <;> simp [h]

theorem alistSet_forall_snd (P : TopicManager → Prop)
    {l : List (String × TopicManager)} {k : String} {v : TopicManager}
    (hl : ∀ p ∈ l, P p.2) (hv : P v) :
    ∀ p ∈ alistSet l k v, P p.2 := by
  intro p hp
  obtain ⟨q, hq, hqe⟩ := List.mem_map.1 hp
  by_cases h : q.1 == k
  · rw [if_pos h] at hqe
    rw [← hqe]
    exact hv
  · rw [if_neg h] at hqe
    rw [← hqe]
    exact hl q hq

theorem PositioningTopicManager.step_no_reset (s : PositioningTopicManager)
    (d : PTMDecision) (keys : List String)
    (hkeys : s.module_managers.map Prod.fst = keys)
    (horig : ∀ p ∈ s.module_managers, p.2.original_topics ≠ [])
    (htshuf : IsShuffler d.tshuf)
    (hsub : ∀ m ∈ s.available_modules, m ∈ keys)
    (hav : s.available_modules ≠ []) :
    ∃ m t s', s.get_next_topic d = some ((m, t), s') ∧
      m ∈ s.available_modules ∧
      s'.available_modules = s.available_modules.erase m ∧
      s'.module_managers.map Prod.fst = keys ∧
      (∀ p ∈ s'.module_managers, p.2.original_topics ≠ []) := by
  have hq : ¬ s.available_modules.isEmpty := by
    simpa [List.isEmpty_iff] using hav
  obtain ⟨m, hcm⟩ := pyChoice_isSome hav d.mchoice
  have hm_mem : m ∈ s.available_modules := pyChoice_mem hcm
  have hmfst : m ∈ s.module_managers.map Prod.fst := by
    rw [hkeys]
    exact hsub m hm_mem
  have hmgr_ne : ¬ s.module_managers.isEmpty := by
    intro hemp
    rw [List.isEmpty_iff] at hemp
    rw [hemp] at hmfst
    simp at hmfst
  obtain ⟨tm, hget, hpair⟩ := alistGet_total hmfst
  obtain ⟨t, tm', hstep, horig'⟩ :=
    TopicManager.get_next_topic_total tm ⟨d.tshuf, d.tchoice⟩ (horig _ hpair) htshuf
  refine ⟨m, t,
    { s with available_modules := s.available_modules.erase m,
             used_modules := s.used_modules ++ [m],
             module_managers := alistSet s.module_managers m tm' }, ?_, hm_mem, rfl, ?_, ?_⟩
  · unfold PositioningTopicManager.get_next_topic
    rw [if_neg hmgr_ne]
    dsimp only
    rw [if_pos hq, hcm]
    dsimp only
    rw [hget]
    dsimp only
    rw [hstep]
  · dsimp only
    rw [alistSet_map_fst]
    exact hkeys
  · dsimp only
    refine alistSet_forall_snd (fun tm => tm.original_topics ≠ []) horig ?_
    show tm'.original_topics ≠ []
    rw [horig']
    exact horig _ hpair

theorem PositioningTopicManager.step_reset (s : PositioningTopicManager)
    (d : PTMDecision) (keys : List String)
    (hkeys : s.module_managers.map Prod.fst = keys)
    (hne : keys ≠ [])
    (horig : ∀ p ∈ s.module_managers, p.2.original_topics ≠ [])
    (hmshuf : IsShuffler d.mshuf) (htshuf : IsShuffler d.tshuf)
    (hav : s.available_modules = []) :
    ∃ m t s', s.get_next_topic d = some ((m, t), s') ∧
      m ∈ d.mshuf keys ∧
      s'.available_modules = (d.mshuf keys).erase m ∧
      s'.module_managers.map Prod.fst = keys ∧
      (∀ p ∈ s'.module_managers, p.2.original_topics ≠ []) := by
  have hperm : List.Perm (d.mshuf keys) keys := hmshuf keys
  have hshne : d.mshuf keys ≠ [] := by
    intro h
    rw [h] at hperm
    exact hne hperm.symm.eq_nil
  have hq : s.available_modules.isEmpty := by
    simp [hav]
  obtain ⟨m, hcm⟩ := pyChoice_isSome hshne d.mchoice
  have hm_mem : m ∈ d.mshuf keys := pyChoice_mem hcm
  have hmfst : m ∈ s.module_managers.map Prod.fst := by
    rw [hkeys]
    exact hperm.mem_iff.1 hm_mem
  have hmgr_ne : ¬ s.module_managers.isEmpty := by
    intro hemp
    rw [List.isEmpty_iff] at hemp
    rw [hemp] at hmfst
    simp at hmfst
  obtain ⟨tm, hget, hpair⟩ := alistGet_total hmfst
  obtain ⟨t, tm', hstep, horig'⟩ :=
    TopicManager.get_next_topic_total tm ⟨d.tshuf, d.tchoice⟩ (horig _ hpair) htshuf
  refine ⟨m, t,
    { s with available_modules := (d.mshuf keys).erase m,
             module_managers := alistSet s.module_managers m tm' }, ?_, hm_mem, rfl, ?_, ?_⟩
  · unfold PositioningTopicManager.get_next_topic
    rw [if_neg hmgr_ne]
    dsimp only
    rw [if_neg (by simp [hq])]
    rw [hkeys, hcm]
    dsimp only
    rw [hget]
    dsimp only
    rw [hstep]
  · dsimp only
    rw [alistSet_map_fst]
    exact hkeys
  · dsimp only
    refine alistSet_forall_snd (fun tm => tm.original_topics ≠ []) horig ?_
    show tm'.original_topics ≠ []
    rw [horig']
    exact horig _ hpair

theorem PositioningTopicManager.run_cons (s : PositioningTopicManager)
    (d : PTMDecision) (ds : List PTMDecision) :
    s.run (d :: ds) =
      match s.get_next_topic d with
      | none => none
      | some (p, s') =>
        match s'.run ds with
        | none => none
        | some (ps, s'') => some (p :: ps, s'') := rfl

theorem PositioningTopicManager.run_no_reset (ds : List PTMDecision) :
    ∀ (s : PositioningTopicManager) (keys : List String),
    s.module_managers.map Prod.fst = keys →
    (∀ p ∈ s.module_managers, p.2.original_topics ≠ []) →
    (∀ d ∈ ds, IsShuffler d.mshuf ∧ IsShuffler d.tshuf) →
    (∀ m ∈ s.available_modules, m ∈ keys) →
    ds.length ≤ s.available_modules.length →
    ∃ ps s', s.run ds = some (ps, s') ∧
      List.Perm (ps.map Prod.fst ++ s'.available_modules) s.available_modules ∧
      s'.module_managers.map Prod.fst = keys ∧
      (∀ p ∈ s'.module_managers, p.2.original_topics ≠ []) ∧
      (∀ m ∈ s'.available_modules, m ∈ keys) ∧
      s'.available_modules.length = s.available_modules.length - ds.length := by
  induction ds with
  | nil =>
    intro s keys hkeys horig _ hsub _
    exact ⟨[], s, rfl, by simp, hkeys, horig, hsub, by simp⟩
  | cons d ds ih =>
    intro s keys hkeys horig hds hsub hlen
    have hav : s.available_modules ≠ [] := by
      intro h
      rw [h] at hlen
      simp at hlen
    obtain ⟨m, t, s1, hstep, hm_mem, havail1, hkeys1, horig1⟩ :=
      PositioningTopicManager.step_no_reset s d keys hkeys horig
        (hds d (by simp)).2 hsub hav
    have hsub1 : ∀ m' ∈ s1.available_modules, m' ∈ keys := by
      intro m' hm'
      rw [havail1] at hm'
      exact hsub m' (List.mem_of_mem_erase hm')
    have hlen1 : ds.length ≤ s1.available_modules.length := by
      rw [havail1, List.length_erase_of_mem hm_mem]
      simp only [List.length_cons] at hlen
      omega
    obtain ⟨ps, s', hrun, hperm, hkeys', horig', hsub', hlen'⟩ :=
      ih s1 keys hkeys1 horig1 (fun d' hd' => hds d' (by simp [hd'])) hsub1 hlen1
    refine ⟨(m, t) :: ps, s', ?_, ?_, hkeys', horig', hsub', ?_⟩
    · unfold PositioningTopicManager.run
      rw [hstep]
      dsimp only
      rw [hrun]
    · have h1 : List.Perm (ps.map Prod.fst ++ s'.available_modules)
          (s.available_modules.erase m) := by
        rw [← havail1]
        exact hperm
      exact (h1.cons m).trans (List.perm_cons_erase hm_mem).symm
    · rw [hlen', havail1, List.length_erase_of_mem hm_mem]
      simp only [List.length_cons] at hlen ⊢
      omega

/-- One full rotation cycle: starting either from a freshly shuffled full
module list or from an exhausted one, the next `M` draws visit every kept
module exactly once and leave the rotation list exhausted. -/
theorem PositioningTopicManager.run_cycle (ds : List PTMDecision)
    (s : PositioningTopicManager) (keys : List String)
    (hkeys : s.module_managers.map Prod.fst = keys)
    (hne : keys ≠ [])
    (horig : ∀ p ∈ s.module_managers, p.2.original_topics ≠ [])
    (hds : ∀ d ∈ ds, IsShuffler d.mshuf ∧ IsShuffler d.tshuf)
    (hstart : List.Perm s.available_modules keys ∨ s.available_modules = [])
    (hlen : ds.length = keys.length) :
    ∃ ps s', s.run ds = some (ps, s') ∧
      List.Perm (ps.map Prod.fst) keys ∧
      s'.module_managers.map Prod.fst = keys ∧
      (∀ p ∈ s'.module_managers, p.2.original_topics ≠ []) ∧
      s'.available_modules = [] := by
  rcases hstart with hfull | hempty
  · obtain ⟨ps, s', hrun, hperm, hkeys', horig', hsub', hlen'⟩ :=
      PositioningTopicManager.run_no_reset ds s keys hkeys horig hds
        (fun m hm => hfull.mem_iff.1 hm) (by rw [hlen, hfull.length_eq])
    have hempty' : s'.available_modules = [] := by
      rw [hlen, hfull.length_eq, Nat.sub_self] at hlen'
      exact List.length_eq_zero.1 hlen'
    rw [hempty', List.append_nil] at hperm
    exact ⟨ps, s', hrun, hperm.trans hfull, hkeys', horig', hempty'⟩
  · match ds, hlen with
    | [], hlen => exact absurd (List.length_eq_zero.1 hlen.symm) hne
    | d :: ds, hlen =>
      obtain ⟨m, t, s1, hstep, hm_mem, havail1, hkeys1, horig1⟩ :=
        PositioningTopicManager.step_reset s d keys hkeys hne horig
          (hds d (by simp)).1 (hds d (by simp)).2 hempty
      have hpermshuf : List.Perm (d.mshuf keys) keys := (hds d (by simp)).1 keys
      have hsub1 : ∀ m' ∈ s1.available_modules, m' ∈ keys := by
        intro m' hm'
        rw [havail1] at hm'
        exact hpermshuf.mem_iff.1 (List.mem_of_mem_erase hm')
      have hlen1 : ds.length ≤ s1.available_modules.length := by
        rw [havail1, List.length_erase_of_mem hm_mem, hpermshuf.length_eq]
        simp only [List.length_cons] at hlen
        omega
      obtain ⟨ps, s', hrun, hperm, hkeys', horig', hsub', hlen'⟩ :=
        PositioningTopicManager.run_no_reset ds s1 keys hkeys1 horig1
          (fun d' hd' => hds d' (by simp [hd'])) hsub1 hlen1
      have hempty' : s'.available_modules = [] := by
        apply List.length_eq_zero.1
        rw [hlen', havail1, List.length_erase_of_mem hm_mem, hpermshuf.length_eq]
        simp only [List.length_cons] at hlen
        omega
      refine ⟨(m, t) :: ps, s', ?_, ?_, hkeys', horig', hempty'⟩
      · unfold PositioningTopicManager.run
        rw [hstep]
        dsimp only
        rw [hrun]
      · rw [hempty', List.append_nil] at hperm
        rw [havail1] at hperm
        have h2 : List.Perm (m :: ps.map Prod.fst) (m :: (d.mshuf keys).erase m) :=
          hperm.cons m
        exact (h2.trans (List.perm_cons_erase hm_mem).symm).trans hpermshuf

theorem PositioningTopicManager.run_append (ds1 ds2 : List PTMDecision) :
    ∀ (s : PositioningTopicManager) ps1 s1, s.run ds1 = some (ps1, s1) →
    s.run (ds1 ++ ds2) =
      (s1.run ds2).map (fun r => (ps1 ++ r.1, r.2)) := by
  induction ds1 with
  | nil =>
    intro s ps1 s1 h
    unfold PositioningTopicManager.run at h
    simp only [Option.some.injEq, Prod.mk.injEq] at h
    obtain ⟨h1, h2⟩ := h
    rw [← h1, ← h2]
    simp only [List.nil_append]
    cases s.run ds2 <;> rfl
  | cons d ds1 ih =>
    intro s ps1 s1 h
    rw [PositioningTopicManager.run_cons] at h
    rcases hstep : s.get_next_topic d with _ | p
    · rw [hstep] at h
      exact absurd h (by simp)
    · rw [hstep] at h
      dsimp only at h
      rcases hrun : p.2.run ds1 with _ | r
      · rw [hrun] at h
        exact absurd h (by simp)
      · rw [hrun] at h
        simp only [Option.some.injEq, Prod.mk.injEq] at h
        obtain ⟨h1, h2⟩ := h
        show PositioningTopicManager.run s (d :: (ds1 ++ ds2)) = _
        rw [PositioningTopicManager.run_cons, hstep]
        dsimp only
        rw [ih p.2 r.1 r.2 (by rw [hrun]), ← h1, ← h2]
        cases r.2.run ds2 <;> rfl

theorem PositioningTopicManager.run_cycles (keys : List String) (hne : keys ≠ []) :
    ∀ (n : ℕ) (ds : List PTMDecision) (s : PositioningTopicManager),
    s.module_managers.map Prod.fst = keys →
    (∀ p ∈ s.module_managers, p.2.original_topics ≠ []) →
    (∀ d ∈ ds, IsShuffler d.mshuf ∧ IsShuffler d.tshuf) →
    (List.Perm s.available_modules keys ∨ s.available_modules = []) →
    ds.length = n * keys.length →
    ∃ ps s', s.run ds = some (ps, s') ∧
      ∀ j < n,
        List.Perm (((ps.map Prod.fst).drop (j * keys.length)).take keys.length) keys := by
  intro n
  induction n with
  | zero =>
    intro ds s _ _ _ _ hlen
    have hnil : ds = [] := List.length_eq_zero.1 (by simpa using hlen)
    subst hnil
    exact ⟨[], s, rfl, fun j hj => absurd hj (by omega)⟩
  | succ n ih =>
    intro ds s hkeys horig hds hstart hlen
    rw [Nat.succ_mul] at hlen
    have hK : keys.length ≤ ds.length := by omega
    have hds1len : (ds.take keys.length).length = keys.length := by
      rw [List.length_take]
      omega
    obtain ⟨ps1, s1, hrun1, hperm1, hkeys1, horig1, hav1⟩ :=
      PositioningTopicManager.run_cycle (ds.take keys.length) s keys hkeys hne horig
        (fun d hd => hds d (List.mem_of_mem_take hd)) hstart hds1len
    obtain ⟨ps2, s', hrun2, hwin⟩ :=
      ih (ds.drop keys.length) s1 hkeys1 horig1
        (fun d hd => hds d (List.mem_of_mem_drop hd)) (Or.inr hav1)
        (by rw [List.length_drop]; omega)
    have happ : s.run ds = some (ps1 ++ ps2, s') := by
      conv_lhs => rw [← List.take_append_drop keys.length ds]
      rw [PositioningTopicManager.run_append (ds.take keys.length) (ds.drop keys.length)
        s ps1 s1 hrun1, hrun2]
      rfl
    refine ⟨ps1 ++ ps2, s', happ, ?_⟩
    have hps1len : (ps1.map Prod.fst).length = keys.length := hperm1.length_eq
    intro j hj
    cases j with
    | zero =>
      simp only [Nat.zero_mul, List.drop_zero, List.map_append]
      rw [List.take_left' hps1len]
      exact hperm1
    | succ j' =>
      rw [List.map_append, Nat.succ_mul, Nat.add_comm, ← List.drop_drop,
        List.drop_left' hps1len]
      exact hwin j' (by omega)

/-- C6 (amended): the fairness guarantee holds for draw windows aligned
with rotation-cycle boundaries: running a `PositioningTopicManager` over
modules with non-empty topic lists for `n` full cycles of `M` draws each
(`M` = number of kept modules) succeeds, and every aligned window of `M`
consecutive draws selects each module exactly once.  (For windows that
straddle a cycle boundary the property fails, see the counterexample.) -/
theorem positioning_rotation_cycles_cover_modules
    (modules_topics : List (String × List String))
    (tshuf0 : ℕ → List String → List String) (mshuf0 : List String → List String)
    (hm0 : IsShuffler mshuf0)
    (hne : keptKeys modules_topics ≠ [])
    (n : ℕ) (ds : List PTMDecision)
    (hds : ∀ d ∈ ds, IsShuffler d.mshuf ∧ IsShuffler d.tshuf)
    (hlen : ds.length = n * (keptKeys modules_topics).length) :
    ∃ ps s',
      (PositioningTopicManager.init modules_topics tshuf0 mshuf0).run ds = some (ps, s') ∧
      ∀ j < n, List.Perm
        (((ps.map Prod.fst).drop (j * (keptKeys modules_topics).length)).take
          (keptKeys modules_topics).length)
        (keptKeys modules_topics) := by
  apply PositioningTopicManager.run_cycles (keptKeys modules_topics) hne n ds _ ?_ ?_ hds ?_ hlen
  · show ((modules_topics.filter (fun p => ¬ p.2.isEmpty)).enum.map
      (fun p => (p.2.1, TopicManager.init p.2.2 (tshuf0 p.1)))).map Prod.fst =
      keptKeys modules_topics
    rw [List.map_map]
    have : (Prod.fst ∘ fun p : ℕ × String × List String =>
        (p.2.1, TopicManager.init p.2.2 (tshuf0 p.1))) =
        (Prod.fst ∘ Prod.snd) := rfl
    rw [this, ← List.map_map, List.enum_map_snd]
    rfl
  · intro p hp
    obtain ⟨q, hq, hqe⟩ := List.mem_map.1 hp
    have hq2 : q.2 ∈ modules_topics.filter (fun p => ¬ p.2.isEmpty) := by
      have := List.mem_map_of_mem Prod.snd hq
      rwa [List.enum_map_snd] at this
    have hne2 : ¬ q.2.2.isEmpty := by
      have := List.of_mem_filter hq2
      simpa using this
    rw [← hqe]
    show (TopicManager.init q.2.2 (tshuf0 q.1)).original_topics ≠ []
    simpa [TopicManager.init, List.isEmpty_iff] using hne2
  · exact Or.inl (hm0 _)

/-- C6 (witness): two modules, two full cycles of two draws; both aligned
windows are permutations of the module list. -/
theorem positioning_rotation_cycles_cover_modules_witness :
    ∃ ps s',
      (PositioningTopicManager.init [("A", ["a"]), ("B", ["b"])] (fun _ => id) id).run
        [⟨id, 0, id, 0⟩, ⟨id, 0, id, 0⟩, ⟨id, 0, id, 0⟩, ⟨id, 0, id, 0⟩] = some (ps, s') ∧
      ∀ j < 2, List.Perm
        (((ps.map Prod.fst).drop (j * (keptKeys [("A", ["a"]), ("B", ["b"])]).length)).take
          (keptKeys [("A", ["a"]), ("B", ["b"])]).length)
        (keptKeys [("A", ["a"]), ("B", ["b"])]) :=
  positioning_rotation_cycles_cover_modules [("A", ["a"]), ("B", ["b"])]
    (fun _ => id) id (fun l => List.Perm.refl l) (by decide) 2
    [⟨id, 0, id, 0⟩, ⟨id, 0, id, 0⟩, ⟨id, 0, id, 0⟩, ⟨id, 0, id, 0⟩]
    (by intro d hd
        fin_cases hd <;> exact ⟨fun l => List.Perm.refl l, fun l => List.Perm.refl l⟩)
    (by decide)

/-- The last index at which `c` occurs in `l` (Python `str.rfind`),
`none` when absent. -/
def pyRFindIdx (c : Char) (l : List Char) : Option ℕ :=
  (l.reverse.findIdx? (fun ch => ch = c)).map (fun i => l.length - 1 - i)

/-- `os.path.splitext(s)[0]`: drop the extension after the last dot,
unless every character between the last path separator and that dot is
itself a dot (so `.bashrc` keeps its name). -/
def splitextRoot (s : String) : String :=
  let l := s.data
  match pyRFindIdx '.' l with
  | none => s
  | some di =>
    let si : ℕ := match pyRFindIdx '/' l with | none => 0 | some j => j + 1
    if si ≤ di ∧ ((l.drop si).take (di - si)).any (fun ch => ch ≠ '.') then
      ⟨l.take di⟩
    else s

/-- Python `s.replace("_", " ")`. -/
def underscoresToSpaces (s : String) : String :=
  ⟨s.data.map (fun ch => if ch = '_' then ' ' else ch)⟩

/-- Python `s.split(c)[-1]`: the suffix after the last occurrence of `c`
(the whole string when `c` is absent). -/
def lastSegmentAfter (c : Char) (s : String) : String :=
  ⟨(s.data.reverse.takeWhile (fun ch => ch ≠ c)).reverse⟩

/-- Python `s.split(":", 1)` followed by two-name unpacking: `none`
(a `ValueError`) when the string has no colon. -/
def pySplitColon1 (s : String) : Option (String × String) :=
  if s.data.any (fun ch => ch = ':') then
    some (⟨s.data.takeWhile (fun ch => ch ≠ ':')⟩,
          ⟨(s.data.dropWhile (fun ch => ch ≠ ':')).tail⟩)
  else none

/-- The whitespace characters stripped by Python's `str.strip()` and
`int()` (ASCII fragment). -/
def isPySpace (c : Char) : Bool :=
  c == ' ' || c == '\t' || c == '\n' || c == '\r' || c == Char.ofNat 11 || c == Char.ofNat 12

/-- Value of a non-empty all-digit character list. -/
def decimalDigitsVal (ds : List Char) : Option ℕ :=
  if ds.isEmpty then none
  else if ds.all (fun ch => ch.isDigit) then
    some (ds.foldl (fun a ch => a * 10 + (ch.toNat - 48)) 0)
  else none

/-- Python `int(s)` on the plain-decimal fragment: optional surrounding
whitespace, optional sign, then decimal digits; anything else raises
`ValueError`, modelled as `none`. -/
def pyInt? (s : String) : Option ℤ :=
  let l := ((s.data.dropWhile isPySpace).reverse.dropWhile isPySpace).reverse
  match l with
  | '-' :: ds => (decimalDigitsVal ds).map (fun n => -(n : ℤ))
  | '+' :: ds => (decimalDigitsVal ds).map (fun n => (n : ℤ))
  | ds => (decimalDigitsVal ds).map (fun n => (n : ℤ))

/-- Python `list(dict.fromkeys(l))`: keep the first occurrence of every
element, in insertion order. -/
def pyDedup (l : List String) : List String :=
  l.foldl (fun acc a => if a ∈ acc then acc else acc ++ [a]) []

example : splitextRoot "Chap_1_File.pdf" = "Chap_1_File" := by decide
example : splitextRoot ".bashrc" = ".bashrc" := by decide
example : splitextRoot "a/b.c/file" = "a/b.c/file" := by decide
example : underscoresToSpaces "Chap_1_File" = "Chap 1 File" := by decide
example : lastSegmentAfter '_' "chunk_3" = "3" := by decide
example : lastSegmentAfter '_' "page3" = "page3" := by decide
example : pySplitColon1 "F.pdf:chunk_3" = some ("F.pdf", "chunk_3") := by decide
example : pySplitColon1 "nocolon" = none := by decide
example : pyInt? "12" = some 12 := by decide
example : pyInt? " -3 " = some (-3) := by decide
example : pyInt? "3a" = none := by decide
example : pyDedup ["a", "b", "a", "c", "b"] = ["a", "b", "c"] := by decide

/-- `grouped.setdefault(title, []).append(page)` on an insertion-ordered
dict modelled as an association list. -/
def groupInsert (groups : List (String × List String)) (title page : String) :
    List (String × List String) :=
  if groups.any (fun g => g.1 == title) then
    groups.map (fun g => if g.1 == title then (g.1, g.2 ++ [page]) else g)
  else groups ++ [(title, [page])]

/-- The grouping loop of `format_and_merge_refs`
(`evaluation_service.py:151`): split each raw reference at its first
colon (`ValueError` → `none`), normalise the file title, extract the page
label after the last underscore, and append it to the title's group. -/
def buildGroups (raw_refs : List String) : Option (List (String × List String)) :=
  raw_refs.foldlM (fun groups rr =>
    match pySplitColon1 rr with
    | none => none
    | some fp =>
      let title := underscoresToSpaces (splitextRoot fp.1)
      let page := lastSegmentAfter '_' fp.2
      some (groupInsert groups title page)) []

/-- The label list rendered for one title: Python
`sorted(set(pages), key=int)`, modelled as first-occurrence dedup followed
by a sort on the parsed numeric value. -/
def sortedLabels (pages : List String) : List String :=
  (pyDedup pages).insertionSort (fun a b => (pyInt? a).getD 0 ≤ (pyInt? b).getD 0)

/-- `format_and_merge_refs` (`evaluation_service.py:145`): group raw
references by normalised title, then render one merged
`"Title, Page a, b"` string per title; a reference without a colon or a
non-numeric page label raises in Python, modelled as `none`. -/
def format_and_merge_refs (raw_refs : List String) : Option (List String) :=
  match buildGroups raw_refs with
  | none => none
  | some grouped =>
    if grouped.all (fun g => g.2.all (fun p => (pyInt? p).isSome)) then
      some (grouped.map (fun g =>
        g.1 ++ ", Page " ++ String.intercalate ", " (sortedLabels g.2)))
    else none

/-- The reference-extraction tail of `fetch_references_for_question`
(`evaluation_service.py:131`): from each retrieval source node's
`(file_name, page_label)` metadata, keep nodes where both are non-empty,
render `"{basename}:{page_label}"`, and deduplicate preserving insertion
order (`list(dict.fromkeys(...))`). -/
def fetch_raw_refs (nodes : List (String × String)) : List String :=
  pyDedup (nodes.filterMap (fun p =>
    let fname := lastSegmentAfter '/' p.1
    if fname ≠ "" ∧ p.2 ≠ "" then some (fname ++ ":" ++ p.2) else none))

example : format_and_merge_refs ["Chap_1_File.pdf:chunk_3", "Chap_1_File.pdf:chunk_4"] =
    some ["Chap 1 File, Page 3, 4"] := by decide
example : format_and_merge_refs ["B.pdf:chunk_10", "A.pdf:chunk_2", "B.pdf:chunk_2"] =
    some ["B, Page 2, 10", "A, Page 2"] := by decide
example : format_and_merge_refs ["nocolon"] = none := by decide
example : fetch_raw_refs [("dir/F.pdf", "3"), ("F.pdf", "3"), ("", "4"), ("G.pdf", "")] =
    ["F.pdf:3"] := by decide

theorem pyDedup_foldl_spec (l0 : List String) :
    ∀ (rest acc pre : List String),
    l0 = pre ++ rest →
    (∀ x, x ∈ acc ↔ x ∈ pre) →
    acc.Nodup →
    List.Pairwise (fun a b => l0.indexOf a < l0.indexOf b) acc →
    (∀ x ∈ acc, l0.indexOf x < pre.length) →
    (rest.foldl (fun acc a => if a ∈ acc then acc else acc ++ [a]) acc).Nodup ∧
    (∀ a, a ∈ rest.foldl (fun acc a => if a ∈ acc then acc else acc ++ [a]) acc ↔ a ∈ l0) ∧
    List.Pairwise (fun a b => l0.indexOf a < l0.indexOf b)
      (rest.foldl (fun acc a => if a ∈ acc then acc else acc ++ [a]) acc) := by
  intro rest
  induction rest with
  | nil =>
    intro acc pre hsplit hmem hnd hpw _
    simp only [List.foldl_nil]
    refine ⟨hnd, ?_, hpw⟩
    intro a
    rw [hmem a, hsplit]
    simp
  | cons r rest ih =>
    intro acc pre hsplit hmem hnd hpw hbound
    simp only [List.foldl_cons]
    by_cases hr : r ∈ acc
    · rw [if_pos hr]
      apply ih acc (pre ++ [r])
      · rw [hsplit]
        simp
      · intro x
        rw [hmem x]
        constructor
        · intro h
          exact List.mem_append_left _ h
        · intro h
          rcases List.mem_append.1 h with h | h
          · exact h
          · simp only [List.mem_singleton] at h
            rw [h]
            exact (hmem r).1 hr
      · exact hnd
      · exact hpw
      · intro x hx
        have := hbound x hx
        simp only [List.length_append, List.length_singleton]
        omega
    · rw [if_neg hr]
      have hrpre : r ∉ pre := fun h => hr ((hmem r).2 h)
      have hidxr : l0.indexOf r = pre.length := by
        rw [hsplit, List.indexOf_append_of_not_mem hrpre, List.indexOf_cons_self]
        omega
      apply ih (acc ++ [r]) (pre ++ [r])
      · rw [hsplit]
        simp
      · intro x
        simp only [List.mem_append, List.mem_singleton]
        exact or_congr (hmem x) Iff.rfl
      · refine List.Nodup.append hnd (List.nodup_singleton r) ?_
        intro x hx hxr
        simp only [List.mem_singleton] at hxr
        rw [hxr] at hx
        exact hr hx
      · rw [List.pairwise_append]
        refine ⟨hpw, by simp, ?_⟩
        intro x hx y hy
        simp only [List.mem_singleton] at hy
        rw [hy, hidxr]
        exact hbound x hx
      · intro x hx
        simp only [List.length_append, List.length_singleton]
        rcases List.mem_append.1 hx with h | h
        · have := hbound x h
          omega
        · simp only [List.mem_singleton] at h
          rw [h, hidxr]
          omega

/-- `list(dict.fromkeys(l))` keeps exactly the members of `l`, without
duplicates, ordered by their first occurrence in `l`. -/
theorem pyDedup_spec (l : List String) :
    (pyDedup l).Nodup ∧ (∀ a, a ∈ pyDedup l ↔ a ∈ l) ∧
    List.Pairwise (fun a b => l.indexOf a < l.indexOf b) (pyDedup l) := by
  have h := pyDedup_foldl_spec l l [] [] rfl (by simp) (by simp) (by simp) (by simp)
  exact ⟨h.1, h.2.1, h.2.2⟩

/-- The normalised title a raw reference is grouped under. -/
def refTitle (rr : String) : Option String :=
  (pySplitColon1 rr).map (fun fp => underscoresToSpaces (splitextRoot fp.1))

/-- The page label extracted from a raw reference. -/
def refLabel (rr : String) : Option String :=
  (pySplitColon1 rr).map (fun fp => lastSegmentAfter '_' fp.2)

theorem groupInsert_map_fst_of_mem {groups : List (String × List String)} {t : String}
    (h : t ∈ groups.map Prod.fst) (pg : String) :
    (groupInsert groups t pg).map Prod.fst = groups.map Prod.fst := by
  have hc : groups.any (fun g => g.1 == t) = true := by
    simp only [List.any_eq_true, beq_iff_eq]
    obtain ⟨g, hg, hgt⟩ := List.mem_map.1 h
    exact ⟨g, hg, hgt⟩
  unfold groupInsert
  rw [if_pos hc, List.map_map]
  apply List.map_congr_left
  intro g _
  by_cases hgt : g.1 = t <;> simp [hgt]

theorem groupInsert_of_not_mem {groups : List (String × List String)} {t : String}
    (h : t ∉ groups.map Prod.fst) (pg : String) :
    groupInsert groups t pg = groups ++ [(t, [pg])] := by
  have hc : ¬ groups.any (fun g => g.1 == t) = true := by
    simp only [List.any_eq_true, beq_iff_eq]
    rintro ⟨g, hg, hgt⟩
    exact h (List.mem_map.2 ⟨g, hg, hgt⟩)
  unfold groupInsert
  rw [if_neg hc]

theorem buildGroups_foldl_spec (l0 : List String) :
    ∀ (rest : List String) (acc : List (String × List String)) (pre : List String),
    l0 = pre ++ rest →
    (∀ rr ∈ rest, (pySplitColon1 rr).isSome) →
    (acc.map Prod.fst).Nodup →
    (∀ t, t ∈ acc.map Prod.fst ↔ some t ∈ pre.map refTitle) →
    (∀ g ∈ acc, g.2 =
      (pre.filter (fun rr => refTitle rr == some g.1)).filterMap refLabel) →
    ∃ groups,
      rest.foldlM (fun groups rr =>
        match pySplitColon1 rr with
        | none => none
        | some fp =>
          let title := underscoresToSpaces (splitextRoot fp.1)
          let page := lastSegmentAfter '_' fp.2
          some (groupInsert groups title page)) acc = some groups ∧
      (groups.map Prod.fst).Nodup ∧
      (∀ t, t ∈ groups.map Prod.fst ↔ some t ∈ l0.map refTitle) ∧
      (∀ g ∈ groups, g.2 =
        (l0.filter (fun rr => refTitle rr == some g.1)).filterMap refLabel) := by
  intro rest
  induction rest with
  | nil =>
    intro acc pre hsplit _ hnd hmem hval
    rw [hsplit, List.append_nil]
    exact ⟨acc, rfl, hnd, hmem, hval⟩
  | cons rr rest ih =>
    intro acc pre hsplit hok hnd hmem hval
    obtain ⟨fp, hfp⟩ := Option.isSome_iff_exists.1 (hok rr (by simp))
    set t := underscoresToSpaces (splitextRoot fp.1) with ht_def
    set pg := lastSegmentAfter '_' fp.2 with hpg_def
    have hT : refTitle rr = some t := by
      rw [refTitle, hfp]
      rfl
    have hL : refLabel rr = some pg := by
      rw [refLabel, hfp]
      rfl
    have hsplit' : l0 = (pre ++ [rr]) ++ rest := by
      rw [hsplit]
      simp
    have hok' : ∀ r ∈ rest, (pySplitColon1 r).isSome := fun r hr => hok r (by simp [hr])
    suffices hsuf : ∃ groups,
        List.foldlM (fun groups rr =>
          match pySplitColon1 rr with
          | none => none
          | some fp =>
            let title := underscoresToSpaces (splitextRoot fp.1)
            let page := lastSegmentAfter '_' fp.2
            some (groupInsert groups title page)) (groupInsert acc t pg) rest = some groups ∧
        (groups.map Prod.fst).Nodup ∧
        (∀ t, t ∈ groups.map Prod.fst ↔ some t ∈ l0.map refTitle) ∧
        (∀ g ∈ groups, g.2 =
          (l0.filter (fun rr => refTitle rr == some g.1)).filterMap refLabel) by
      obtain ⟨groups, hfold, h1, h2, h3⟩ := hsuf
      refine ⟨groups, ?_, h1, h2, h3⟩
      rw [List.foldlM_cons, hfp]
      exact hfold
    by_cases hmem_t : t ∈ acc.map Prod.fst
    · have hkeys : (groupInsert acc t pg).map Prod.fst = acc.map Prod.fst :=
        groupInsert_map_fst_of_mem hmem_t pg
      apply ih (groupInsert acc t pg) (pre ++ [rr]) hsplit' hok'
      · rw [hkeys]
        exact hnd
      · intro t'
        rw [hkeys, hmem t']
        simp only [List.map_append, List.map_cons, List.map_nil, List.mem_append,
          List.mem_singleton, hT, Option.some.injEq]
        constructor
        · intro h
          exact Or.inl h
        · rintro (h | h)
          · exact h
          · rw [h]
            exact (hmem t).1 hmem_t
      · intro g' hg'
        have hc : acc.any (fun g => g.1 == t) = true := by
          simp only [List.any_eq_true, beq_iff_eq]
          obtain ⟨g, hg, hgt⟩ := List.mem_map.1 hmem_t
          exact ⟨g, hg, hgt⟩
        rw [groupInsert, if_pos hc] at hg'
        obtain ⟨g, hg, hge⟩ := List.mem_map.1 hg'
        rw [List.filter_append, List.filterMap_append]
        by_cases hgt : g.1 = t
        · rw [if_pos (by simp [hgt])] at hge
          have hfst : g'.1 = g.1 := by rw [← hge]
          have hsnd : g'.2 = g.2 ++ [pg] := by rw [← hge]
          rw [hsnd, hval g hg, hfst]
          rw [List.filter_cons, List.filter_nil]
          rw [if_pos (by simp [hT, hgt])]
          simp [hL]
        · rw [if_neg (by simp [hgt])] at hge
          rw [← hge]
          rw [hval g hg]
          rw [List.filter_cons, List.filter_nil]
          rw [if_neg (by simp [hT]; exact fun h => hgt h.symm)]
          simp
    · have hins : groupInsert acc t pg = acc ++ [(t, [pg])] :=
        groupInsert_of_not_mem hmem_t pg
      apply ih (groupInsert acc t pg) (pre ++ [rr]) hsplit' hok'
      · rw [hins, List.map_append]
        refine List.Nodup.append hnd (by simp) ?_
        intro x hx hxt
        simp only [List.map_cons, List.map_nil, List.mem_singleton] at hxt
        rw [hxt] at hx
        exact hmem_t hx
      · intro t'
        rw [hins, List.map_append]
        simp only [List.map_cons, List.map_nil, List.mem_append, List.mem_singleton,
          List.map_append, hT, Option.some.injEq]
        rw [hmem t']
      · intro g' hg'
        rw [hins] at hg'
        rcases List.mem_append.1 hg' with hg | hg
        · have hgt : g'.1 ≠ t := by
            intro h
            rw [← h] at hmem_t
            exact hmem_t (List.mem_map_of_mem Prod.fst hg)
          rw [List.filter_append, List.filterMap_append, hval g' hg]
          rw [List.filter_cons, List.filter_nil]
          rw [if_neg (by simp [hT]; exact fun h => hgt h.symm)]
          simp
        · simp only [List.mem_singleton] at hg
          rw [hg]
          show [pg] = _
          have hprenil : pre.filter (fun r => refTitle r == some t) = [] := by
            rw [List.filter_eq_nil_iff]
            intro r hr hrt
            simp only [beq_iff_eq] at hrt
            have : some t ∈ pre.map refTitle := by
              rw [← hrt]
              exact List.mem_map_of_mem refTitle hr
            rw [← hmem t] at this
            exact hmem_t this
          rw [List.filter_append, List.filterMap_append, hprenil]
          rw [List.filter_cons, List.filter_nil]
          rw [if_pos (by simp [hT])]
          simp [hL]

theorem sortedLabels_spec (pages : List String)
    (hvals : ∀ p ∈ pages, (pyInt? p).isSome)
    (hinj : ∀ p ∈ pages, ∀ q ∈ pages, pyInt? p = pyInt? q → p = q) :
    (sortedLabels pages).Nodup ∧ (∀ p, p ∈ sortedLabels pages ↔ p ∈ pages) ∧
    List.Pairwise (fun a b => (pyInt? a).getD 0 < (pyInt? b).getD 0)
      (sortedLabels pages) := by
  obtain ⟨hnd, hmem, -⟩ := pyDedup_spec pages
  have hperm : List.Perm (sortedLabels pages) (pyDedup pages) :=
    List.perm_insertionSort _ _
  have hmem' : ∀ p, p ∈ sortedLabels pages ↔ p ∈ pages := by
    intro p
    rw [hperm.mem_iff, hmem p]
  have hnd' : (sortedLabels pages).Nodup := hperm.nodup_iff.2 hnd
  refine ⟨hnd', hmem', ?_⟩
  haveI : IsTotal String (fun a b => (pyInt? a).getD 0 ≤ (pyInt? b).getD 0) :=
    ⟨fun a b => Int.le_total _ _⟩
  haveI : IsTrans String (fun a b => (pyInt? a).getD 0 ≤ (pyInt? b).getD 0) :=
    ⟨fun a b c hab hbc => le_trans hab hbc⟩
  have hsorted : List.Pairwise (fun a b => (pyInt? a).getD 0 ≤ (pyInt? b).getD 0)
      (sortedLabels pages) := List.sorted_insertionSort _ _
  have hne : List.Pairwise (fun a b : String => a ≠ b) (sortedLabels pages) := hnd'
  refine (hsorted.and hne).imp_of_mem ?_
  intro a b ha hb hab
  obtain ⟨hle, hne'⟩ := hab
  have hva : (pyInt? a).isSome := hvals a ((hmem' a).1 ha)
  have hvb : (pyInt? b).isSome := hvals b ((hmem' b).1 hb)
  rcases lt_or_eq_of_le hle with h | h
  · exact h
  · exfalso
    apply hne'
    apply hinj a ((hmem' a).1 ha) b ((hmem' b).1 hb)
    obtain ⟨va, hva'⟩ := Option.isSome_iff_exists.1 hva
    obtain ⟨vb, hvb'⟩ := Option.isSome_iff_exists.1 hvb
    rw [hva', hvb'] at h ⊢
    simp only [Option.getD_some] at h
    rw [h]

/-- C9: `format_and_merge_refs` groups raw references by normalised title
(extension stripped, underscores replaced by spaces), emits exactly one
`"Title, Page a, b"` line per distinct title, whose labels are the
distinct page labels of that title sorted in strictly ascending numeric
order; and the extraction step of `fetch_references_for_question`
deduplicates the raw `"file:label"` strings preserving first-occurrence
order. -/
theorem references_format_and_merge
    (raw_refs : List String) (nodes : List (String × String))
    (hsplit : ∀ rr ∈ raw_refs, (pySplitColon1 rr).isSome)
    (hparse : ∀ rr ∈ raw_refs, ∃ p, refLabel rr = some p ∧ (pyInt? p).isSome)
    (hinj : ∀ rr ∈ raw_refs, ∀ rr' ∈ raw_refs, refTitle rr = refTitle rr' →
      ∀ p p', refLabel rr = some p → refLabel rr' = some p' →
      pyInt? p = pyInt? p' → p = p') :
    (∃ groups out, buildGroups raw_refs = some groups ∧
      format_and_merge_refs raw_refs = some out ∧
      (groups.map Prod.fst).Nodup ∧
      (∀ t, t ∈ groups.map Prod.fst ↔ some t ∈ raw_refs.map refTitle) ∧
      out = groups.map (fun g =>
        g.1 ++ ", Page " ++ String.intercalate ", " (sortedLabels g.2)) ∧
      ∀ g ∈ groups,
        g.2 = (raw_refs.filter (fun rr => refTitle rr == some g.1)).filterMap refLabel ∧
        (sortedLabels g.2).Nodup ∧
        (∀ p, p ∈ sortedLabels g.2 ↔ p ∈ g.2) ∧
        List.Pairwise (fun a b => (pyInt? a).getD 0 < (pyInt? b).getD 0)
          (sortedLabels g.2)) ∧
    ((fetch_raw_refs nodes).Nodup ∧
      (∀ r, r ∈ fetch_raw_refs nodes ↔ r ∈ nodes.filterMap (fun p =>
        let fname := lastSegmentAfter '/' p.1
        if fname ≠ "" ∧ p.2 ≠ "" then some (fname ++ ":" ++ p.2) else none)) ∧
      List.Pairwise (fun a b =>
        (nodes.filterMap (fun p =>
          let fname := lastSegmentAfter '/' p.1
          if fname ≠ "" ∧ p.2 ≠ "" then some (fname ++ ":" ++ p.2) else none)).indexOf a <
        (nodes.filterMap (fun p =>
          let fname := lastSegmentAfter '/' p.1
          if fname ≠ "" ∧ p.2 ≠ "" then some (fname ++ ":" ++ p.2) else none)).indexOf b)
        (fetch_raw_refs nodes)) := by
  constructor
  · obtain ⟨groups, hfold, hnd, hmem, hval⟩ :=
      buildGroups_foldl_spec raw_refs raw_refs [] [] rfl hsplit (by simp) (by simp)
        (by simp)
    have hbuild : buildGroups raw_refs = some groups := hfold
    have hlabels : ∀ g ∈ groups, ∀ p ∈ g.2, (pyInt? p).isSome := by
      intro g hg p hp
      rw [hval g hg] at hp
      obtain ⟨rr, hrr, hlab⟩ := List.mem_filterMap.1 hp
      have hrraw : rr ∈ raw_refs := List.mem_of_mem_filter hrr
      obtain ⟨p', hp', hps⟩ := hparse rr hrraw
      rw [hp'] at hlab
      rw [← Option.some.inj hlab]
      exact hps
    have hcond : groups.all (fun g => g.2.all (fun p => (pyInt? p).isSome)) = true := by
      rw [List.all_eq_true]
      intro g hg
      rw [List.all_eq_true]
      intro p hp
      exact hlabels g hg p hp
    have hfmt : format_and_merge_refs raw_refs = some (groups.map (fun g =>
        g.1 ++ ", Page " ++ String.intercalate ", " (sortedLabels g.2))) := by
      unfold format_and_merge_refs
      rw [hbuild]
      dsimp only
      rw [if_pos hcond]
    refine ⟨groups, _, hbuild, hfmt, hnd, hmem, rfl, ?_⟩
    intro g hg
    have hginj : ∀ p ∈ g.2, ∀ q ∈ g.2, pyInt? p = pyInt? q → p = q := by
      intro p hp q hq hpq
      rw [hval g hg] at hp hq
      obtain ⟨rr, hrr, hlabp⟩ := List.mem_filterMap.1 hp
      obtain ⟨rr', hrr', hlabq⟩ := List.mem_filterMap.1 hq
      have htp : refTitle rr = some g.1 := by
        have := List.of_mem_filter hrr
        simpa using this
      have htq : refTitle rr' = some g.1 := by
        have := List.of_mem_filter hrr'
        simpa using this
      exact hinj rr (List.mem_of_mem_filter hrr) rr' (List.mem_of_mem_filter hrr')
        (htp.trans htq.symm) p q hlabp hlabq hpq
    obtain ⟨h1, h2, h3⟩ := sortedLabels_spec g.2 (hlabels g hg) hginj
    exact ⟨hval g hg, h1, h2, h3⟩
  · obtain ⟨h1, h2, h3⟩ := pyDedup_spec (nodes.filterMap (fun p =>
      let fname := lastSegmentAfter '/' p.1
      if fname ≠ "" ∧ p.2 ≠ "" then some (fname ++ ":" ++ p.2) else none))
    exact ⟨h1, h2, h3⟩

/-- C9 (witness): the docstring example
`["Chap_1_File.pdf:chunk_3", "Chap_1_File.pdf:chunk_4"]`, plus source
nodes with a duplicate reference. -/
theorem references_format_and_merge_witness :
    (∃ groups out,
      buildGroups ["Chap_1_File.pdf:chunk_3", "Chap_1_File.pdf:chunk_4"] = some groups ∧
      format_and_merge_refs ["Chap_1_File.pdf:chunk_3", "Chap_1_File.pdf:chunk_4"] =
        some out ∧
      (groups.map Prod.fst).Nodup ∧
      (∀ t, t ∈ groups.map Prod.fst ↔
        some t ∈ ["Chap_1_File.pdf:chunk_3", "Chap_1_File.pdf:chunk_4"].map refTitle) ∧
      out = groups.map (fun g =>
        g.1 ++ ", Page " ++ String.intercalate ", " (sortedLabels g.2)) ∧
      ∀ g ∈ groups,
        g.2 = (["Chap_1_File.pdf:chunk_3", "Chap_1_File.pdf:chunk_4"].filter
          (fun rr => refTitle rr == some g.1)).filterMap refLabel ∧
        (sortedLabels g.2).Nodup ∧
        (∀ p, p ∈ sortedLabels g.2 ↔ p ∈ g.2) ∧
        List.Pairwise (fun a b => (pyInt? a).getD 0 < (pyInt? b).getD 0)
          (sortedLabels g.2)) ∧
    ((fetch_raw_refs [("dir/F.pdf", "3"), ("F.pdf", "3")]).Nodup ∧
      (∀ r, r ∈ fetch_raw_refs [("dir/F.pdf", "3"), ("F.pdf", "3")] ↔
        r ∈ [("dir/F.pdf", "3"), ("F.pdf", "3")].filterMap (fun p =>
          let fname := lastSegmentAfter '/' p.1
          if fname ≠ "" ∧ p.2 ≠ "" then some (fname ++ ":" ++ p.2) else none)) ∧
      List.Pairwise (fun a b =>
        ([("dir/F.pdf", "3"), ("F.pdf", "3")].filterMap (fun p =>
          let fname := lastSegmentAfter '/' p.1
          if fname ≠ "" ∧ p.2 ≠ "" then some (fname ++ ":" ++ p.2) else none)).indexOf a <
        ([("dir/F.pdf", "3"), ("F.pdf", "3")].filterMap (fun p =>
          let fname := lastSegmentAfter '/' p.1
          if fname ≠ "" ∧ p.2 ≠ "" then some (fname ++ ":" ++ p.2) else none)).indexOf b)
        (fetch_raw_refs [("dir/F.pdf", "3"), ("F.pdf", "3")])) :=
  references_format_and_merge
    ["Chap_1_File.pdf:chunk_3", "Chap_1_File.pdf:chunk_4"]
    [("dir/F.pdf", "3"), ("F.pdf", "3")]
    (by decide)
    (by intro rr hrr
        fin_cases hrr
        · exact ⟨"3", by decide, by decide⟩
        · exact ⟨"4", by decide, by decide⟩)
    (by intro rr hrr rr' hrr' ht p p' hp hp' hv
        fin_cases hrr <;> fin_cases hrr' <;>
          simp only [show refLabel "Chap_1_File.pdf:chunk_3" = some "3" by decide,
            show refLabel "Chap_1_File.pdf:chunk_4" = some "4" by decide,
            Option.some.injEq] at hp hp' <;>
          subst hp <;> subst hp' <;> first | rfl | exact absurd hv (by decide))

/-- Opening brace character (written via its code point throughout). -/
def lbraceChar : Char := Char.ofNat 123

/-- Closing brace character. -/
def rbraceChar : Char := Char.ofNat 125

/-- JSON values exchanged between the services and the LLM.  Numbers are
modelled on the integer fragment the services actually exchange. -/
inductive Json where
  | null
  | bool (b : Bool)
  | num (z : ℤ)
  | str (s : String)
  | arr (elems : List Json)
  | obj (members : List (String × Json))

/-- JSON whitespace as skipped by `json.loads` (space, tab, LF, CR). -/
def skipWs : List Char → List Char
  | c :: rest =>
    if c = ' ' ∨ c = '\t' ∨ c = '\n' ∨ c = '\r' then skipWs rest else c :: rest
  | [] => []

def parseHexDigit (c : Char) : Option ℕ :=
  if '0' ≤ c ∧ c ≤ '9' then some (c.toNat - 48)
  else if 'a' ≤ c ∧ c ≤ 'f' then some (c.toNat - 87)
  else if 'A' ≤ c ∧ c ≤ 'F' then some (c.toNat - 55)
  else none

/-- Body of a JSON string literal (after the opening quote), with the
escape sequences `json.loads` accepts; raw control characters and unknown
escapes are rejected as in Python's strict mode. -/
def escCharOf (e : Char) : Option Char :=
  if e = '"' then some '"'
  else if e = '\\' then some '\\'
  else if e = '/' then some '/'
  else if e = 'b' then some (Char.ofNat 8)
  else if e = 'f' then some (Char.ofNat 12)
  else if e = 'n' then some '\n'
  else if e = 'r' then some '\r'
  else if e = 't' then some '\t'
  else none

def parseStringBody : List Char → Option (String × List Char)
  | [] => none
  | '"' :: rest => some ("", rest)
  | '\\' :: 'u' :: h1 :: h2 :: h3 :: h4 :: rest3 =>
    match parseHexDigit h1, parseHexDigit h2, parseHexDigit h3, parseHexDigit h4 with
    | some a, some b, some c', some d =>
      (parseStringBody rest3).map (fun p =>
        (⟨Char.ofNat (a * 4096 + b * 256 + c' * 16 + d) :: p.1.data⟩, p.2))
    | _, _, _, _ => none
  | '\\' :: 'u' :: _ => none
  | '\\' :: e :: rest2 =>
    match escCharOf e with
    | some ch => (parseStringBody rest2).map (fun p => (⟨ch :: p.1.data⟩, p.2))
    | none => none
  | ['\\'] => none
  | c :: rest =>
    if c.toNat < 32 then none
    else (parseStringBody rest).map (fun p => (⟨c :: p.1.data⟩, p.2))

/-- A JSON integer numeral: optional minus sign, digits, no leading zeros. -/
def parseNumber (input : List Char) : Option (Json × List Char) :=
  let core : List Char → Option (ℕ × List Char) := fun l =>
    let digits := l.takeWhile (fun c => c.isDigit)
    if digits.isEmpty then none
    else if 1 < digits.length ∧ digits.headI = '0' then none
    else
      match (decimalDigitsVal digits) with
      | some n =>
        match l.drop digits.length with
        | c :: rest' =>
          if c = '.' ∨ c = 'e' ∨ c = 'E' then none
          else some (n, c :: rest')
        | [] => some (n, [])
      | none => none
  match input with
  | '-' :: rest => (core rest).map (fun p => (Json.num (-(p.1 : ℤ)), p.2))
  | _ => (core input).map (fun p => (Json.num (p.1 : ℤ), p.2))

/-- Match a literal keyword (`null`, `true`, `false`). -/
def expectChars : List Char → List Char → Option (List Char)
  | [], rest => some rest
  | k :: ks, c :: rest => if c = k then expectChars ks rest else none
  | _ :: _, [] => none

mutual
/-- Recursive-descent JSON value parser (fuel-indexed), modelling
`json.loads` on the fragment the services exchange. -/
def parseValue : ℕ → List Char → Option (Json × List Char)
  | 0, _ => none
  | fuel + 1, input =>
    match skipWs input with
    | [] => none
    | c :: rest =>
      if c = 'n' then (expectChars ['u', 'l', 'l'] rest).map (fun r => (Json.null, r))
      else if c = 't' then (expectChars ['r', 'u', 'e'] rest).map (fun r => (Json.bool true, r))
      else if c = 'f' then
        (expectChars ['a', 'l', 's', 'e'] rest).map (fun r => (Json.bool false, r))
      else if c = '"' then (parseStringBody rest).map (fun p => (Json.str p.1, p.2))
      else if c = '[' then
        match skipWs rest with
        | ']' :: r2 => some (Json.arr [], r2)
        | _ => (parseElems fuel rest).map (fun p => (Json.arr p.1, p.2))
      else if c = lbraceChar then
        match skipWs rest with
        | r :: r2 => if r = rbraceChar then some (Json.obj [], r2)
                     else (parseMembers fuel rest).map (fun p => (Json.obj p.1, p.2))
        | [] => none
      else parseNumber (c :: rest)

/-- One-or-more comma-separated array elements, ending at `]`. -/
def parseElems : ℕ → List Char → Option (List Json × List Char)
  | 0, _ => none
  | fuel + 1, input =>
    match parseValue fuel input with
    | none => none
    | some (v, rest) =>
      match skipWs rest with
      | ',' :: r2 => (parseElems fuel r2).map (fun p => (v :: p.1, p.2))
      | ']' :: r2 => some ([v], r2)
      | _ => none

/-- One-or-more `"key": value` object members, ending at the closing
brace. -/
def parseMembers : ℕ → List Char → Option (List (String × Json) × List Char)
  | 0, _ => none
  | fuel + 1, input =>
    match skipWs input with
    | '"' :: rest =>
      match parseStringBody rest with
      | none => none
      | some (k, rest2) =>
        match skipWs rest2 with
        | ':' :: rest3 =>
          match parseValue fuel rest3 with
          | none => none
          | some (v, rest4) =>
            match skipWs rest4 with
            | ',' :: r5 => (parseMembers fuel r5).map (fun p => ((k, v) :: p.1, p.2))
            | r :: r5 => if r = rbraceChar then some ([(k, v)], r5) else none
            | [] => none
        | _ => none
    | _ => none
end

/-- `json.loads`: parse one JSON value and require only whitespace after
it (Python's "Extra data" error otherwise). -/
def loads (s : String) : Option Json :=
  match parseValue (2 * s.data.length + 2) s.data with
  | some (v, rest) => if skipWs rest = [] then some v else none
  | none => none

example : loads "\x7b\"a\": 1\x7d" = some (Json.obj [("a", Json.num 1)]) := by rfl
example : loads " \x7b \"a\" : [1, -2, \"x\"] , \"b\": true \x7d " =
    some (Json.obj [("a", Json.arr [Json.num 1, Json.num (-2), Json.str "x"]),
      ("b", Json.bool true)]) := by rfl
example : loads "\x7b\"a\": 1\x7d x" = none := by rfl
example : loads "null" = some Json.null := by rfl
example : loads "\x7b\"q\": \"a\\\"b\"\x7d" =
    some (Json.obj [("q", Json.str "a\"b")]) := by rfl
example : loads "01" = none := by rfl
example : loads "" = none := by rfl

/-- Python `str.strip()` (ASCII whitespace fragment). -/
def pyStrip (s : String) : String :=
  ⟨((s.data.dropWhile (fun c => isPySpace c)).reverse.dropWhile
    (fun c => isPySpace c)).reverse⟩

/-- Python `str.find(c)`: index of the first occurrence, `none` for -1. -/
def pyFindIdx (c : Char) (l : List Char) : Option ℕ :=
  l.findIdx? (fun ch => ch = c)

/-- `extract_and_parse_json` (`evaluation_service.py:167`): strip the raw
response; when it does not start with a brace, slice from the first
opening brace to the last closing brace (if both exist); then parse.  A
parse failure raises `HTTPException(502, ...)` whose message names
`context_info` (the Python message also appends the decoder's error
text, which is not modelled). -/
def extract_and_parse_json (raw_response : String) (context_info : String) :
    Except String Json :=
  let raw := pyStrip raw_response
  let raw :=
    if raw.data.head? ≠ some lbraceChar then
      match pyFindIdx lbraceChar raw.data, pyRFindIdx rbraceChar raw.data with
      | some st, some en => (⟨(raw.data.drop st).take (en + 1 - st)⟩ : String)
      | _, _ => raw
    else raw
  match loads raw with
  | some v => Except.ok v
  | none => Except.error ("LLM returned invalid JSON for " ++ context_info)

/-- `payload.get(k)` on a parsed JSON object: Python's `json.loads` keeps
the last of duplicate keys. -/
def objGet (members : List (String × Json)) (k : String) : Option Json :=
  (members.reverse.find? (fun p => p.1 == k)).map Prod.snd

/-- `parse_llm_response` (`evaluation_service.py:218`): parse with
fallback extraction, then return the `questions` list truncated to its
first element (`questions[:1]`; an empty list is returned as is, which
`List.take 1` also models).  The Python context string quotes the topic
(`topic '<topic>'`); the quotes are not modelled. -/
def parse_llm_response (raw_response : String) (topic : String) :
    Except String (List Json) :=
  match extract_and_parse_json raw_response ("topic " ++ topic) with
  | Except.error e => Except.error e
  | Except.ok payload =>
    match payload with
    | Json.obj members =>
      match objGet members "questions" with
      | some (Json.arr qs) => Except.ok (qs.take 1)
      | _ => Except.error ("questions missing for " ++ topic)
    | _ => Except.error ("AttributeError: get on non-dict for " ++ topic)

example : extract_and_parse_json "Sure! \x7b\"a\": 1\x7d thanks" "topic T" =
    Except.ok (Json.obj [("a", Json.num 1)]) := by rfl
example : parse_llm_response "\x7b\"questions\": [[\"Q\", \"A\"]]\x7d" "T" =
    Except.ok [Json.arr [Json.str "Q", Json.str "A"]] := by rfl
example : parse_llm_response "garbage" "T" =
    Except.error "LLM returned invalid JSON for topic T" := by rfl

/-- C4 (counterexample): a response that is invalid JSON as given but
*starts* with a brace is rejected without any extraction attempt: for
`'{"a": 1} x'` the slice between the first `{` and the last `}` parses
(it is `{"a": 1}`), yet `extract_and_parse_json` returns the structured
502 error, because the fallback slicing only runs when the stripped
response does not start with `{`. -/
theorem extract_json_counterexample :
    extract_and_parse_json "\x7b\"a\": 1\x7d x" "topic T" =
      Except.error "LLM returned invalid JSON for topic T" ∧
    pyFindIdx lbraceChar ("\x7b\"a\": 1\x7d x".data) = some 0 ∧
    pyRFindIdx rbraceChar ("\x7b\"a\": 1\x7d x".data) = some 7 ∧
    loads ⟨(("\x7b\"a\": 1\x7d x".data.drop 0).take (7 + 1 - 0))⟩ =
      some (Json.obj [("a", Json.num 1)]) := by
  exact ⟨rfl, rfl, rfl, rfl⟩

/-- C4 (amended): the brace-slicing fallback runs only when the stripped
response does not start with `{`: in that case, whenever the substring
from the first `{` to the last `}` parses as JSON, parsing succeeds with
that value (in particular JSON wrapped in prose on both sides parses);
and whenever parsing fails, `parse_llm_response` returns the structured
error naming the offending topic. -/
theorem extract_json_fallback_slicing :
    (∀ (raw ctx : String) (st en : ℕ) (v : Json),
      (pyStrip raw).data.head? ≠ some lbraceChar →
      pyFindIdx lbraceChar (pyStrip raw).data = some st →
      pyRFindIdx rbraceChar (pyStrip raw).data = some en →
      loads ⟨((pyStrip raw).data.drop st).take (en + 1 - st)⟩ = some v →
      extract_and_parse_json raw ctx = Except.ok v) ∧
    (∀ (raw topic : String),
      (∀ v, extract_and_parse_json raw ("topic " ++ topic) ≠ Except.ok v) →
      parse_llm_response raw topic =
        Except.error ("LLM returned invalid JSON for topic " ++ topic)) := by
  constructor
  · intro raw ctx st en v hhead hst hen hloads
    unfold extract_and_parse_json
    dsimp only
    rw [if_pos hhead, hst, hen]
    dsimp only
    rw [hloads]
  · intro raw topic hfail
    unfold parse_llm_response
    rcases hres : extract_and_parse_json raw ("topic " ++ topic) with e | payload
    · have he : e = "LLM returned invalid JSON for topic " ++ topic := by
        unfold extract_and_parse_json at hres
        dsimp only at hres
        split at hres
        · exact absurd hres (by simp)
        · have h2 := Except.error.inj hres
          rw [← h2, ← String.append_assoc]
          congr 1
      rw [he]
    · exact absurd hres (fun h => hfail payload (by rw [h]))

/-- C4 (witness): prose-wrapped JSON parses; garbage produces the
topic-naming error. -/
theorem extract_json_fallback_slicing_witness :
    extract_and_parse_json "Sure! \x7b\"a\": 1\x7d thanks" "topic T" =
      Except.ok (Json.obj [("a", Json.num 1)]) ∧
    parse_llm_response "garbage" "Pricing" =
      Except.error ("LLM returned invalid JSON for topic " ++ "Pricing") :=
  ⟨extract_json_fallback_slicing.1 "Sure! \x7b\"a\": 1\x7d thanks" "topic T" 6 13
      (Json.obj [("a", Json.num 1)]) (by decide) (by decide) (by decide) (by rfl),
    extract_json_fallback_slicing.2 "garbage" "Pricing"
      (fun v h => Except.noConfusion h)⟩

/-- Python exception classes observable from the evaluation services:
FastAPI `HTTPException`s with their status code, and the builtin
exceptions the code can raise. -/
inductive PyErr where
  | http (code : ℕ) (msg : String)
  | indexError (msg : String)
  | valueError (msg : String)
  | typeError (msg : String)

/-- A FastAPI `HTTPException(400, ...)`, the class the spec calls
`ValidationError`. -/
def PyErr.isValidationB : PyErr → Bool
  | .http 400 _ => true
  | _ => false

/-- The external collaborators of the live-generation pipeline: agent
availability, the raw LLM completion returned for the `i`-th question
item, and the retrieval source nodes (`file_name`, `page_label` metadata
pairs) returned for a reference query.  The per-topic context string
returned by `get_context_for_topic` only feeds the prompt and is not
modelled. -/
structure Collaborators where
  agent_ok : Bool
  llm : ℕ → String
  nodes : String → List (String × String)

/-- The randomness consumed by one `evaluate_mixed` call. -/
structure EvalRng where
  tshuf0 : List String → List String
  ptshuf0 : ℕ → List String → List String
  pmshuf0 : List String → List String
  dec : ℕ → PTMDecision
  item_shuffle : List (String × String) → List (String × String)

/-- The manager variant chosen by `orchestrate_mixed_evaluation_optimized`. -/
def MgrState := TopicManager ⊕ PositioningTopicManager

/-- One `get_next_topic()` call on either manager variant.  An empty
`PositioningTopicManager` raises `ValueError`; an empty pool reaching
`random.choice` raises `IndexError`. -/
def mgrStep (s : MgrState) (d : PTMDecision) : Except PyErr (String × MgrState) :=
  match s with
  | Sum.inl tm =>
    match tm.get_next_topic ⟨d.tshuf, d.tchoice⟩ with
    | none => Except.error (PyErr.indexError "Cannot choose from an empty sequence")
    | some p => Except.ok (p.1, Sum.inl p.2)
  | Sum.inr pm =>
    if pm.module_managers.isEmpty then
      Except.error (PyErr.valueError "No modules with topics available")
    else
      match pm.get_next_topic d with
      | none => Except.error (PyErr.indexError "Cannot choose from an empty sequence")
      | some p => Except.ok (p.1.2, Sum.inr p.2)

/-- `n` sequential draws, consuming decisions `start, start+1, ...`. -/
def drawTopics : MgrState → (ℕ → PTMDecision) → ℕ → ℕ → Except PyErr (List String × MgrState)
  | s, _, _, 0 => Except.ok ([], s)
  | s, dec, start, n + 1 =>
    match mgrStep s (dec start) with
    | Except.error e => Except.error e
    | Except.ok (t, s') =>
      match drawTopics s' dec (start + 1) n with
      | Except.error e => Except.error e
      | Except.ok (ts, s'') => Except.ok (t :: ts, s'')

def EVALUATION_BATCH_SIZE : ℕ := 15

def chunkListAux {α : Type} : ℕ → ℕ → List α → List (List α)
  | 0, _, _ => []
  | _, _, [] => []
  | fuel + 1, n, x :: xs => ((x :: xs).take n) :: chunkListAux fuel n ((x :: xs).drop n)

/-- `[l[i:i+n] for i in range(0, len(l), n)]`. -/
def chunkList {α : Type} (n : ℕ) (l : List α) : List (List α) :=
  chunkListAux l.length n l

/-- `asyncio.gather` over already-computed task results: the first failure
aborts, otherwise the results are collected in task order. -/
def collectExcept {α : Type} : List (Except PyErr α) → Except PyErr (List α)
  | [] => Except.ok []
  | Except.error e :: _ => Except.error e
  | Except.ok x :: rest => (collectExcept rest).map (x :: ·)

/-- `question[0]`, the text used as the reference query.  (A non-list
question would fail in Python too, though string payloads would fail
slightly later, at the reference assignment.) -/
def question_text (q : Json) : Except PyErr String :=
  match q with
  | Json.arr (Json.str s :: _) => Except.ok s
  | Json.arr (_ :: _) => Except.error (PyErr.typeError "question text is not a string")
  | Json.arr [] => Except.error (PyErr.indexError "list index out of range")
  | _ => Except.error (PyErr.typeError "question is not a list")

/-- `question[-1] = formatted_refs`: overwrite the last slot in place. -/
def setLast (q : Json) (refs : List String) : Json :=
  match q with
  | Json.arr l => Json.arr (l.set (l.length - 1) (Json.arr (refs.map Json.str)))
  | x => x

/-- Reference resolution for one question
(`fetch_references_for_question` then `format_and_merge_refs`); a page
label that `int()` cannot parse raises `ValueError`. -/
def populateQuestion (C : Collaborators) (q : Json) : Except PyErr Json :=
  match question_text q with
  | Except.error e => Except.error e
  | Except.ok text =>
    match format_and_merge_refs (fetch_raw_refs (C.nodes text)) with
    | none => Except.error (PyErr.valueError "invalid literal for int()")
    | some refs => Except.ok (setLast q refs)

/-- One generation task: LLM call for item `i`, then
`parse_llm_response`; parse failures surface as `HTTPException(502, ...)`
(the non-dict-payload `AttributeError` is modelled in the same error
class). -/
def generateItem (C : Collaborators) (item : ℕ × String × String) :
    Except PyErr (List Json) :=
  match parse_llm_response (C.llm item.1) item.2.1 with
  | Except.ok qs => Except.ok qs
  | Except.error e => Except.error (PyErr.http 502 e)

/-- `process_batch_with_pipeline`: generate every question of the batch,
then resolve references for the batch's questions.  The semaphores and
the 5-question reference sub-batches bound concurrency and memory only
and do not affect the result. -/
def processBatch (C : Collaborators) (batch : List (ℕ × String × String)) :
    Except PyErr (List Json) :=
  match collectExcept (batch.map (generateItem C)) with
  | Except.error e => Except.error e
  | Except.ok qlists =>
    collectExcept (qlists.join.map (populateQuestion C))

/-- All batch tasks, gathered; output questions are concatenated in batch
order. -/
def processBatches (C : Collaborators) (batches : List (List (ℕ × String × String))) :
    Except PyErr (List Json) :=
  (collectExcept (batches.map (processBatch C))).map List.join

/-- `orchestrate_mixed_evaluation_optimized` (`evaluation_service.py:375`):
apportion counts, draw `num_mcq` MCQ topics then `num_open` open topics,
shuffle the combined item list, and process it in batches of
`EVALUATION_BATCH_SIZE`.  The second component counts LLM completion
calls: the gather dispatches every item's generation task, so it is the
item count once the generation phase is reached and `0` before. -/
def orchestrate_mixed_evaluation_optimized (topics : List String)
    (num_questions : ℕ) (mcq_weight open_weight : ℚ) (is_positioning : Bool)
    (modules_topics : List (String × List String)) (C : Collaborators) (R : EvalRng) :
    Except PyErr (List Json) × ℕ :=
  match distribute_question_counts num_questions [mcq_weight, open_weight] with
  | none => (Except.error (PyErr.indexError "list index out of range"), 0)
  | some counts =>
    match counts with
    | [num_mcq, num_open] =>
      let mgr : MgrState :=
        if is_positioning ∧ ¬ modules_topics.isEmpty then
          Sum.inr (PositioningTopicManager.init modules_topics R.ptshuf0 R.pmshuf0)
        else Sum.inl (TopicManager.init topics R.tshuf0)
      match drawTopics mgr R.dec 0 num_mcq.toNat with
      | Except.error e => (Except.error e, 0)
      | Except.ok (mcq_topics, mgr1) =>
        match drawTopics mgr1 R.dec num_mcq.toNat num_open.toNat with
        | Except.error e => (Except.error e, 0)
        | Except.ok (open_topics, _) =>
          let items := R.item_shuffle
            (mcq_topics.map (fun t => (t, "mcq")) ++ open_topics.map (fun t => (t, "open")))
          let batches := chunkList EVALUATION_BATCH_SIZE items.enum
          (processBatches C batches, items.length)
    | _ => (Except.error (PyErr.valueError "not enough values to unpack"), 0)

/-- The dictionary returned by the evaluation entry points: `source` and
`missing_modules` are `none` when the corresponding key is absent. -/
structure MixedResult where
  questions : List Json
  source : Option String
  missing_modules : Option (List String)

/-- `evaluate_mixed` (`evaluation_service.py:534`): weight-range check,
weight-sum tolerance check, positioning check, agent availability, then
the orchestration; the result dict has only the `questions` key. -/
def evaluate_mixed (topics : List String) (num_questions : ℕ)
    (mcq_weight open_weight : ℚ) (language : String) (is_positioning : Bool)
    (modules_topics : List (String × List String)) (course_filter : Option String)
    (C : Collaborators) (R : EvalRng) : Except PyErr MixedResult × ℕ :=
  if ¬ (0 ≤ mcq_weight ∧ mcq_weight ≤ 1 ∧ 0 ≤ open_weight ∧ open_weight ≤ 1) then
    (Except.error (PyErr.http 400 "Weights must be between 0 and 1"), 0)
  else if 1/1000 < |mcq_weight + open_weight - 1| then
    (Except.error (PyErr.http 400 "MCQ and Open weights must sum to 1.0"), 0)
  else if is_positioning ∧ modules_topics.isEmpty then
    (Except.error (PyErr.http 400 "modules_topics is required for positioning evaluation"), 0)
  else if ¬ C.agent_ok then
    (Except.error (PyErr.http 500 "Agent initialization failed"), 0)
  else
    match orchestrate_mixed_evaluation_optimized topics num_questions mcq_weight
        open_weight is_positioning modules_topics C R with
    | (Except.error e, k) => (Except.error e, k)
    | (Except.ok qs, k) => (Except.ok ⟨qs, none, none⟩, k)

/-- A question loaded from a CSV bank row (`csv_evaluation_service.py:15`);
the JSON-encoded `options`/`references` cells arrive decoded, and the
unused `metadata` cell is not modelled. -/
structure CSVQuestion where
  id : String
  text : String
  type : String
  options : List String
  correct_answer : String
  feedback : String
  references : List String
deriving DecidableEq

/-- `CSVQuestion.to_evaluation_format`: 8-slot MCQ tuple or 3-slot open
tuple, options padded with `""`. -/
def CSVQuestion.to_evaluation_format (q : CSVQuestion) : Json :=
  if q.type = "mcq" then
    Json.arr [Json.str q.text, Json.str (q.options.getD 0 ""),
      Json.str (q.options.getD 1 ""), Json.str (q.options.getD 2 ""),
      Json.str (q.options.getD 3 ""), Json.str q.correct_answer,
      Json.str q.feedback, Json.arr (q.references.map Json.str)]
  else
    Json.arr [Json.str q.text, Json.str q.correct_answer,
      Json.arr (q.references.map Json.str)]

/-- Collaborators and randomness of the CSV path: blob-backed CSV loading
keyed by `(course, module, language)` (`none` models both a missing blob
and any load error), `random.sample` (always invoked with
`0 ≤ k ≤ len`), and the final `random.shuffle`. -/
structure CsvOracles where
  load : String → String → String → Option (List CSVQuestion)
  sample : List CSVQuestion → ℕ → List CSVQuestion
  qshuffle : List CSVQuestion → List CSVQuestion

/-- Python `l[:k]` for an integer (possibly negative) `k`. -/
def pySliceTo {α : Type} (l : List α) (k : ℤ) : List α :=
  if 0 ≤ k then l.take k.toNat else l.take (l.length - (-k).toNat)

/-- `select_random_questions_balanced` (`csv_evaluation_service.py:110`).
Non-positioning: pool all modules' questions of the requested type,
return them all when fewer than `count`, else `random.sample` (which
raises `ValueError` for a negative count).  Positioning: an equal share
per module (`max(1, count // M)` plus one for the first `count % M`
modules), then back-fill from the not-yet-selected remainder
(membership by value, where Python compares by object identity —
equivalent here since bank rows are distinct), finally truncate with
`[:count]`. -/
def select_random_questions_balanced (O : CsvOracles)
    (questions_by_module : List (String × List CSVQuestion))
    (question_type : String) (count : ℤ) (is_positioning : Bool) :
    Except PyErr (List CSVQuestion) :=
  if ¬ is_positioning then
    let all := (questions_by_module.map
      (fun m => m.2.filter (fun q => q.type == question_type))).flatten
    if (all.length : ℤ) < count then Except.ok all
    else if count < 0 then
      Except.error (PyErr.valueError "Sample larger than population or is negative")
    else Except.ok (O.sample all count.toNat)
  else
    if questions_by_module.isEmpty then
      Except.error (PyErr.valueError "integer division or modulo by zero")
    else
      let M : ℤ := questions_by_module.length
      let qpm : ℤ := max 1 (Int.fdiv count M)
      let rem : ℤ := Int.fmod count M
      let selected := (questions_by_module.enum.map (fun p =>
        let module_questions := p.2.2.filter (fun q => q.type == question_type)
        let target : ℤ := qpm + (if (p.1 : ℤ) < rem then 1 else 0)
        if module_questions.isEmpty then []
        else O.sample module_questions
          (min target (module_questions.length : ℤ)).toNat)).flatten
      let selected2 :=
        if (selected.length : ℤ) < count then
          let remaining_needed := count - selected.length
          let all_remaining := (questions_by_module.map (fun m =>
            m.2.filter (fun q => q.type == question_type ∧ q ∉ selected))).flatten
          if all_remaining.isEmpty then selected
          else selected ++ O.sample all_remaining
            (min remaining_needed (all_remaining.length : ℤ)).toNat
        else selected
      Except.ok (pySliceTo selected2 count)

/-- The per-module CSV loads of `evaluate_mixed_from_csv`: modules with
an empty topic list are skipped; a `None`/empty result is a miss
(`if csv_questions:`). -/
def csvQuestionsByModule (modules_topics : List (String × List String))
    (course_filter : Option String) (language : String) (O : CsvOracles) :
    List (String × List CSVQuestion) :=
  (modules_topics.filter (fun m => ¬ m.2.isEmpty)).filterMap (fun m =>
    match O.load (course_filter.getD "Marketing Management") m.1 language with
    | some qs => if qs.isEmpty then none else some (m.1, qs)
    | none => none)

/-- The `missing_modules` list accumulated by the load loop. -/
def csvMissingModules (modules_topics : List (String × List String))
    (course_filter : Option String) (language : String) (O : CsvOracles) :
    List String :=
  ((modules_topics.filter (fun m => ¬ m.2.isEmpty)).filter (fun m =>
    match O.load (course_filter.getD "Marketing Management") m.1 language with
    | some qs => qs.isEmpty
    | none => true)).map Prod.fst

/-- The mcq/open split of the CSV path: hardcoded pairs for 15, 10 and 5
questions, the weight-based apportionment otherwise (whose `IndexError`
is `none`; the two-name unpacking always sees two counts). -/
def csv_mcq_open_counts (num_questions : ℕ) (mcq_weight open_weight : ℚ) :
    Option (ℤ × ℤ) :=
  if num_questions = 15 then some (10, 5)
  else if num_questions = 10 then some (7, 3)
  else if num_questions = 5 then some (3, 2)
  else
    match distribute_question_counts num_questions [mcq_weight, open_weight] with
    | some [m, o] => some (m, o)
    | _ => none

/-- `evaluate_mixed_from_csv` (`csv_evaluation_service.py:185`): load each
requested module's CSV; when no module yields questions, fall back to
`evaluate_mixed` over the union of every module's topics (returning its
dict unchanged); otherwise select per-type counts, shuffle, and return
the formatted questions with `source: "csv"` and the missing-module
list. -/
def evaluate_mixed_from_csv (modules_topics : List (String × List String))
    (num_questions : ℕ) (mcq_weight open_weight : ℚ) (language : String)
    (is_positioning : Bool) (course_filter : Option String)
    (C : Collaborators) (R : EvalRng) (O : CsvOracles) :
    Except PyErr MixedResult × ℕ :=
  let questions_by_module := csvQuestionsByModule modules_topics course_filter language O
  if questions_by_module.isEmpty then
    evaluate_mixed (modules_topics.map Prod.snd).flatten num_questions mcq_weight
      open_weight language is_positioning modules_topics course_filter C R
  else
    match csv_mcq_open_counts num_questions mcq_weight open_weight with
    | none => (Except.error (PyErr.indexError "list index out of range"), 0)
    | some (mcq_count, open_count) =>
      match select_random_questions_balanced O questions_by_module "mcq" mcq_count
          is_positioning with
      | Except.error e => (Except.error e, 0)
      | Except.ok selected_mcq =>
        match select_random_questions_balanced O questions_by_module "open" open_count
            is_positioning with
        | Except.error e => (Except.error e, 0)
        | Except.ok selected_open =>
          let all_selected := O.qshuffle (selected_mcq ++ selected_open)
          (Except.ok ⟨all_selected.map CSVQuestion.to_evaluation_format,
            some "csv",
            some (csvMissingModules modules_topics course_filter language O)⟩, 0)

/-- C7 (amended): invalid weights (out of range or violating the 0.001
sum tolerance) and positioning without module topics are rejected by
`evaluate_mixed` with `HTTPException(400, ...)` before the agent or the
LLM is consulted (zero completion calls).  An empty topic list, however,
is not validated: it fails later with an `IndexError` (see the
counterexample), not a 400. -/
theorem evaluate_mixed_validation_rejects (topics : List String) (N : ℕ)
    (w1 w2 : ℚ) (language : String) (is_positioning : Bool)
    (modules_topics : List (String × List String)) (course_filter : Option String)
    (C : Collaborators) (R : EvalRng)
    (h : ¬ (0 ≤ w1 ∧ w1 ≤ 1 ∧ 0 ≤ w2 ∧ w2 ≤ 1) ∨ 1/1000 < |w1 + w2 - 1| ∨
      (is_positioning ∧ modules_topics.isEmpty)) :
    ∃ msg, evaluate_mixed topics N w1 w2 language is_positioning modules_topics
      course_filter C R = (Except.error (PyErr.http 400 msg), 0) := by
  unfold evaluate_mixed
  by_cases h1 : ¬ (0 ≤ w1 ∧ w1 ≤ 1 ∧ 0 ≤ w2 ∧ w2 ≤ 1)
  · rw [if_pos h1]
    exact ⟨_, rfl⟩
  · rw [if_neg h1]
    by_cases h2 : 1/1000 < |w1 + w2 - 1|
    · rw [if_pos h2]
      exact ⟨_, rfl⟩
    · rw [if_neg h2]
      have h3 : is_positioning ∧ modules_topics.isEmpty := by tauto
      rw [if_pos h3]
      exact ⟨_, rfl⟩

/-- C7 (witness): the spec's own example, `mcq_weight=0.6, open_weight=0.5`
(sum 1.1), rejected with zero LLM calls. -/
theorem evaluate_mixed_validation_rejects_witness :
    ∃ msg, evaluate_mixed ["A"] 5 ((3:ℚ)/5) ((1:ℚ)/2) "French" false [] none
      ⟨true, fun _ => "", fun _ => []⟩
      ⟨id, fun _ => id, id, fun _ => ⟨id, 0, id, 0⟩, id⟩ =
      (Except.error (PyErr.http 400 msg), 0) :=
  evaluate_mixed_validation_rejects ["A"] 5 (3/5) (1/2) "French" false [] none
    ⟨true, fun _ => "", fun _ => []⟩
    ⟨id, fun _ => id, id, fun _ => ⟨id, 0, id, 0⟩, id⟩
    (Or.inr (Or.inl (by
      have habs : |(3:ℚ)/5 + 1/2 - 1| = 1/10 := by
        rw [abs_of_nonneg] <;> norm_num
      rw [habs]
      norm_num)))

/-- C7 (counterexample): `evaluate_mixed` with an empty topic list (one
question, balanced weights, not positioning) passes every validation
check and then crashes drawing from the empty `TopicManager` with an
`IndexError` — not the `ValidationError` (HTTP 400) the spec promises
for empty topic lists. -/
theorem evaluate_mixed_empty_topics_counterexample :
    evaluate_mixed [] 1 ((1:ℚ)/2) ((1:ℚ)/2) "French" false [] none
      ⟨true, fun _ => "", fun _ => []⟩
      ⟨id, fun _ => id, id, fun _ => ⟨id, 0, id, 0⟩, id⟩ =
      (Except.error (PyErr.indexError "Cannot choose from an empty sequence"), 0) ∧
    (PyErr.indexError "Cannot choose from an empty sequence").isValidationB = false := by
  constructor
  · have hd : distribute_question_counts 1 [(1:ℚ)/2, 1/2] = some [1, 0] := by
      norm_num [distribute_question_counts, bumpIndices, List.insertionSort,
        List.orderedInsert]
    unfold evaluate_mixed
    rw [if_neg (by norm_num), if_neg (by norm_num), if_neg (by simp), if_neg (by simp)]
    unfold orchestrate_mixed_evaluation_optimized
    rw [hd]
    rfl
  · rfl

/-- Well-behaved collaborators: every LLM response parses to exactly one
question whose first slot is its text string, and every reference query
yields formattable references. -/
def GoodCollaborators (C : Collaborators) : Prop :=
  (∀ i t, ∃ q, parse_llm_response (C.llm i) t = Except.ok [q] ∧
    ∃ s rest, q = Json.arr (Json.str s :: rest)) ∧
  (∀ s, ∃ r, format_and_merge_refs (fetch_raw_refs (C.nodes s)) = some r)

theorem collectExcept_ok {α β : Type} (f : α → Except PyErr β) (Q : β → Prop) :
    ∀ l : List α, (∀ x ∈ l, ∃ y, f x = Except.ok y ∧ Q y) →
    ∃ ys, collectExcept (l.map f) = Except.ok ys ∧ ys.length = l.length ∧
      ∀ y ∈ ys, Q y := by
  intro l
  induction l with
  | nil => exact fun _ => ⟨[], rfl, rfl, by simp⟩
  | cons x xs ih =>
    intro h
    obtain ⟨y, hy, hQ⟩ := h x (by simp)
    obtain ⟨ys, hys, hlen, hall⟩ := ih (fun z hz => h z (by simp [hz]))
    refine ⟨y :: ys, ?_, by simp [hlen], ?_⟩
    · rw [List.map_cons]
      show collectExcept (f x :: xs.map f) = _
      rw [show collectExcept (f x :: xs.map f) =
        match f x with
        | Except.error e => Except.error e
        | Except.ok z => (collectExcept (xs.map f)).map (z :: ·) from by
          cases f x <;> rfl]
      rw [hy, hys]
      rfl
    · intro z hz
      rcases List.mem_cons.1 hz with hz | hz
      · rw [hz]
        exact hQ
      · exact hall z hz

theorem flatten_length_of_singletons {α : Type} :
    ∀ ys : List (List α), (∀ x ∈ ys, x.length = 1) → ys.flatten.length = ys.length := by
  intro ys
  induction ys with
  | nil => intro _; rfl
  | cons y ys ih =>
    intro h
    rw [List.flatten_cons, List.length_append, ih (fun z hz => h z (by simp [hz])),
      h y (by simp), List.length_cons]
    omega

/-- A question of the shape the pipeline produces: a JSON array whose
first slot is the question text. -/
def GoodQuestion (q : Json) : Prop :=
  ∃ s rest, q = Json.arr (Json.str s :: rest)

theorem populateQuestion_ok (C : Collaborators)
    (hrefs : ∀ s, ∃ r, format_and_merge_refs (fetch_raw_refs (C.nodes s)) = some r)
    (q : Json) (hq : GoodQuestion q) :
    ∃ q', populateQuestion C q = Except.ok q' := by
  obtain ⟨s, rest, hshape⟩ := hq
  obtain ⟨r, hr⟩ := hrefs s
  refine ⟨setLast q r, ?_⟩
  unfold populateQuestion
  rw [hshape]
  show (match format_and_merge_refs (fetch_raw_refs (C.nodes s)) with
    | none => Except.error (PyErr.valueError "invalid literal for int()")
    | some refs => Except.ok (setLast (Json.arr (Json.str s :: rest)) refs)) = _
  rw [hr]

theorem processBatch_ok (C : Collaborators) (hC : GoodCollaborators C) :
    ∀ batch : List (ℕ × String × String),
    ∃ qs, processBatch C batch = Except.ok qs ∧ qs.length = batch.length := by
  intro batch
  obtain ⟨hllm, hrefs⟩ := hC
  obtain ⟨qlists, hcoll, hlen, hall⟩ := collectExcept_ok (generateItem C)
    (fun qs => qs.length = 1 ∧ ∀ q ∈ qs, GoodQuestion q) batch
    (by
      intro it _
      obtain ⟨q, hq, s, rest, hqshape⟩ := hllm it.1 it.2.1
      refine ⟨[q], ?_, rfl, ?_⟩
      · unfold generateItem
        rw [hq]
      · intro q' hq'
        simp only [List.mem_singleton] at hq'
        rw [hq']
        exact ⟨s, rest, hqshape⟩)
  have hsing : ∀ x ∈ qlists, x.length = 1 := fun x hx => (hall x hx).1
  have hflatlen : qlists.flatten.length = batch.length := by
    rw [flatten_length_of_singletons qlists hsing, hlen]
  have hgoodflat : ∀ q ∈ qlists.flatten, GoodQuestion q := by
    intro q hq
    obtain ⟨x, hx, hqx⟩ := List.mem_flatten.1 hq
    exact (hall x hx).2 q hqx
  obtain ⟨qs, hpop, hplen, -⟩ := collectExcept_ok (populateQuestion C)
    (fun _ => True) qlists.flatten
    (fun q hq => by
      obtain ⟨q', hq'⟩ := populateQuestion_ok C hrefs q (hgoodflat q hq)
      exact ⟨q', hq', trivial⟩)
  refine ⟨qs, ?_, by rw [hplen, hflatlen]⟩
  unfold processBatch
  rw [hcoll]
  exact hpop

theorem processBatches_collect (C : Collaborators) (hC : GoodCollaborators C) :
    ∀ batches : List (List (ℕ × String × String)),
    ∃ ys, collectExcept (batches.map (processBatch C)) = Except.ok ys ∧
      ys.flatten.length = batches.flatten.length := by
  intro batches
  induction batches with
  | nil => exact ⟨[], rfl, rfl⟩
  | cons b bs ih =>
    obtain ⟨qs, hqs, hqlen⟩ := processBatch_ok C hC b
    obtain ⟨ys, hys, hylen⟩ := ih
    refine ⟨qs :: ys, ?_, ?_⟩
    · rw [List.map_cons]
      show collectExcept (processBatch C b :: bs.map (processBatch C)) = _
      rw [show collectExcept (processBatch C b :: bs.map (processBatch C)) =
        match processBatch C b with
        | Except.error e => Except.error e
        | Except.ok z => (collectExcept (bs.map (processBatch C))).map (z :: ·) from by
          cases processBatch C b <;> rfl]
      rw [hqs, hys]
      rfl
    · rw [List.flatten_cons, List.flatten_cons, List.length_append, List.length_append,
        hqlen, hylen]

theorem processBatches_ok (C : Collaborators) (hC : GoodCollaborators C)
    (batches : List (List (ℕ × String × String))) :
    ∃ qs, processBatches C batches = Except.ok qs ∧
      qs.length = batches.flatten.length := by
  obtain ⟨ys, hys, hylen⟩ := processBatches_collect C hC batches
  refine ⟨ys.flatten, ?_, hylen⟩
  unfold processBatches
  rw [hys]
  rfl

theorem chunkListAux_flatten {α : Type} :
    ∀ (fuel n : ℕ) (l : List α), l.length ≤ fuel → 0 < n →
    (chunkListAux fuel n l).flatten = l := by
  intro fuel
  induction fuel with
  | zero =>
    intro n l hl _
    have : l = [] := List.length_eq_zero.1 (by omega)
    rw [this]
    rfl
  | succ fuel ih =>
    intro n l hl hn
    match l with
    | [] => rfl
    | x :: xs =>
      show (((x :: xs).take n) :: chunkListAux fuel n ((x :: xs).drop n)).flatten = x :: xs
      rw [List.flatten_cons, ih n ((x :: xs).drop n)
        (by rw [List.length_drop]; simp only [List.length_cons] at hl ⊢; omega) hn,
        List.take_append_drop]

theorem chunkList_flatten {α : Type} (n : ℕ) (hn : 0 < n) (l : List α) :
    (chunkList n l).flatten = l :=
  chunkListAux_flatten l.length n l le_rfl hn

theorem drawTopics_tm (dec : ℕ → PTMDecision)
    (hdec : ∀ i, IsShuffler (dec i).tshuf) :
    ∀ (n start : ℕ) (tm : TopicManager), tm.original_topics ≠ [] →
    ∃ ts tm', drawTopics (Sum.inl tm) dec start n = Except.ok (ts, Sum.inl tm') ∧
      ts.length = n ∧ tm'.original_topics = tm.original_topics := by
  intro n
  induction n with
  | zero => exact fun start tm _ => ⟨[], tm, rfl, rfl, rfl⟩
  | succ n ih =>
    intro start tm h
    obtain ⟨t, tm1, hstep, horig⟩ :=
      TopicManager.get_next_topic_total tm
        ⟨(dec start).tshuf, (dec start).tchoice⟩ h (hdec start)
    obtain ⟨ts, tm', hrun, hlen, horig'⟩ := ih (start + 1) tm1 (by rw [horig]; exact h)
    refine ⟨t :: ts, tm', ?_, by simp [hlen], by rw [horig', horig]⟩
    show drawTopics (Sum.inl tm) dec start (n + 1) = _
    unfold drawTopics
    rw [show mgrStep (Sum.inl tm) (dec start) = Except.ok (t, Sum.inl tm1) from by
      unfold mgrStep
      dsimp only
      rw [hstep]]
    dsimp only
    rw [hrun]

theorem orchestrate_mixed_ok (topics : List String) (N : ℕ) (w1 w2 : ℚ)
    (modules_topics : List (String × List String)) (C : Collaborators) (R : EvalRng)
    (hC : GoodCollaborators C) (htop : topics ≠ [])
    (hdec : ∀ i, IsShuffler (R.dec i).tshuf)
    (hshuf : ∀ l, List.Perm (R.item_shuffle l) l)
    (h1 : 0 ≤ w1) (h2 : 0 ≤ w2) (hsum : w1 + w2 = 1) :
    ∃ qs, orchestrate_mixed_evaluation_optimized topics N w1 w2 false modules_topics C R =
      (Except.ok qs, N) ∧ qs.length = N := by
  obtain ⟨a, b, hdist, ha, hb, hab⟩ := distribute_two_exact N w1 w2 h1 h2 hsum
  unfold orchestrate_mixed_evaluation_optimized
  rw [hdist]
  dsimp only
  rw [if_neg (by simp)]
  obtain ⟨ts1, tm1, hd1, hl1, ho1⟩ := drawTopics_tm R.dec hdec a.toNat 0
    (TopicManager.init topics R.tshuf0) htop
  rw [hd1]
  dsimp only
  obtain ⟨ts2, tm2, hd2, hl2, ho2⟩ := drawTopics_tm R.dec hdec b.toNat a.toNat tm1
    (by rw [ho1]; exact htop)
  rw [hd2]
  dsimp only
  have hitems : (R.item_shuffle (ts1.map (fun t => (t, "mcq")) ++
      ts2.map (fun t => (t, "open")))).length = N := by
    rw [(hshuf _).length_eq, List.length_append, List.length_map, List.length_map,
      hl1, hl2]
    omega
  obtain ⟨qs, hp, hplen⟩ := processBatches_ok C hC
    (chunkList EVALUATION_BATCH_SIZE (R.item_shuffle (ts1.map (fun t => (t, "mcq")) ++
      ts2.map (fun t => (t, "open")))).enum)
  rw [hp]
  refine ⟨qs, ?_, ?_⟩
  · rw [hitems]
  · rw [hplen, chunkList_flatten EVALUATION_BATCH_SIZE (by norm_num [EVALUATION_BATCH_SIZE]) _,
      List.enum_length]
    exact hitems

/-- C2 (amended): when no requested module yields CSV questions,
`evaluate_mixed_from_csv` falls back entirely to `evaluate_mixed` over
the union of all requested modules' topics and returns its dictionary
unchanged; with well-behaved collaborators (non-positioning request,
valid weights) this succeeds with a question list of the requested
length — but the returned dictionary carries *no* `source` key at all
(the spec's `source: "agent"` is never set by the code). -/
theorem csv_all_miss_falls_back_to_agent
    (modules_topics : List (String × List String)) (N : ℕ) (w1 w2 : ℚ)
    (language : String) (is_positioning : Bool) (course_filter : Option String)
    (C : Collaborators) (R : EvalRng) (O : CsvOracles)
    (hmiss : ∀ m ∈ modules_topics,
      (O.load (course_filter.getD "Marketing Management") m.1 language).getD [] = []) :
    evaluate_mixed_from_csv modules_topics N w1 w2 language is_positioning
      course_filter C R O =
      evaluate_mixed (modules_topics.map Prod.snd).flatten N w1 w2 language
        is_positioning modules_topics course_filter C R ∧
    (GoodCollaborators C → C.agent_ok = true → is_positioning = false →
     (modules_topics.map Prod.snd).flatten ≠ [] →
     (∀ i, IsShuffler (R.dec i).tshuf) → (∀ l, List.Perm (R.item_shuffle l) l) →
     0 ≤ w1 → 0 ≤ w2 → w1 + w2 = 1 →
     ∃ qs, evaluate_mixed_from_csv modules_topics N w1 w2 language is_positioning
       course_filter C R O = (Except.ok ⟨qs, none, none⟩, N) ∧ qs.length = N) := by
  have hqbm : csvQuestionsByModule modules_topics course_filter language O = [] := by
    unfold csvQuestionsByModule
    rw [List.filterMap_eq_nil]
    intro m hm
    have hm' : m ∈ modules_topics := List.mem_of_mem_filter hm
    have := hmiss m hm'
    cases hload : O.load (course_filter.getD "Marketing Management") m.1 language with
    | none => rfl
    | some qs =>
      rw [hload] at this
      simp only [Option.getD_some] at this
      rw [this]
      rfl
  have hfb : evaluate_mixed_from_csv modules_topics N w1 w2 language is_positioning
      course_filter C R O =
      evaluate_mixed (modules_topics.map Prod.snd).flatten N w1 w2 language
        is_positioning modules_topics course_filter C R := by
    unfold evaluate_mixed_from_csv
    rw [hqbm]
    rfl
  refine ⟨hfb, ?_⟩
  intro hC hagent hpos htop hdec hshuf h1 h2 hsum
  rw [hfb, hpos]
  have hw1le : w1 ≤ 1 := by linarith
  have hw2le : w2 ≤ 1 := by linarith
  obtain ⟨qs, hor, hlen⟩ := orchestrate_mixed_ok (modules_topics.map Prod.snd).flatten
    N w1 w2 modules_topics C R hC htop hdec hshuf h1 h2 hsum
  refine ⟨qs, ?_, hlen⟩
  unfold evaluate_mixed
  rw [if_neg (by push_neg; exact ⟨h1, hw1le, h2, hw2le⟩)]
  rw [if_neg (by rw [hsum]; norm_num)]
  rw [if_neg (by simp)]
  rw [if_neg (by simp [hagent])]
  rw [hor]

/-- C2 (counterexample): a concrete all-miss request (`{"M1": ["t1"]}`,
one question, balanced weights, CSV loader finding nothing).  The call
falls back to live generation and returns one question of the requested
length — but the returned dictionary has `source = none` (no `source`
key), not the `source: "agent"` the spec claims. -/
theorem csv_fallback_missing_source_counterexample :
    evaluate_mixed_from_csv [("M1", ["t1"])] 1 ((1:ℚ)/2) ((1:ℚ)/2) "French" false none
      ⟨true, fun _ => "\x7b\"questions\": [[\"Q\", \"A\", \"r\"]]\x7d",
        fun _ => [("F.pdf", "3")]⟩
      ⟨id, fun _ => id, id, fun _ => ⟨id, 0, id, 0⟩, id⟩
      ⟨fun _ _ _ => none, fun l k => l.take k, id⟩ =
      (Except.ok ⟨[Json.arr [Json.str "Q", Json.str "A",
        Json.arr [Json.str "F, Page 3"]]], none, none⟩, 1) ∧
    (none : Option String) ≠ some "agent" := by
  refine ⟨?_, by simp⟩
  have h1 : evaluate_mixed_from_csv [("M1", ["t1"])] 1 ((1:ℚ)/2) ((1:ℚ)/2) "French"
      false none
      ⟨true, fun _ => "\x7b\"questions\": [[\"Q\", \"A\", \"r\"]]\x7d",
        fun _ => [("F.pdf", "3")]⟩
      ⟨id, fun _ => id, id, fun _ => ⟨id, 0, id, 0⟩, id⟩
      ⟨fun _ _ _ => none, fun l k => l.take k, id⟩ =
      evaluate_mixed ["t1"] 1 ((1:ℚ)/2) ((1:ℚ)/2) "French" false [("M1", ["t1"])] none
      ⟨true, fun _ => "\x7b\"questions\": [[\"Q\", \"A\", \"r\"]]\x7d",
        fun _ => [("F.pdf", "3")]⟩
      ⟨id, fun _ => id, id, fun _ => ⟨id, 0, id, 0⟩, id⟩ := rfl
  rw [h1]
  have hd : distribute_question_counts 1 [(1:ℚ)/2, 1/2] = some [1, 0] := by
    norm_num [distribute_question_counts, bumpIndices, List.insertionSort,
      List.orderedInsert]
  unfold evaluate_mixed
  rw [if_neg (by norm_num), if_neg (by norm_num), if_neg (by simp), if_neg (by simp)]
  unfold orchestrate_mixed_evaluation_optimized
  rw [hd]
  rfl

/-- C2 (witness): the same all-miss request, through the amended theorem:
the fallback returns one question and no `source` key. -/
theorem csv_all_miss_falls_back_to_agent_witness :
    ∃ qs, evaluate_mixed_from_csv [("M1", ["t1"])] 1 ((1:ℚ)/2) ((1:ℚ)/2) "French"
      false none
      ⟨true, fun _ => "\x7b\"questions\": [[\"Q\", \"A\", \"r\"]]\x7d",
        fun _ => [("F.pdf", "3")]⟩
      ⟨id, fun _ => id, id, fun _ => ⟨id, 0, id, 0⟩, id⟩
      ⟨fun _ _ _ => none, fun l k => l.take k, id⟩ =
      (Except.ok ⟨qs, none, none⟩, 1) ∧ qs.length = 1 :=
  (csv_all_miss_falls_back_to_agent [("M1", ["t1"])] 1 ((1:ℚ)/2) ((1:ℚ)/2) "French"
    false none
    ⟨true, fun _ => "\x7b\"questions\": [[\"Q\", \"A\", \"r\"]]\x7d",
      fun _ => [("F.pdf", "3")]⟩
    ⟨id, fun _ => id, id, fun _ => ⟨id, 0, id, 0⟩, id⟩
    ⟨fun _ _ _ => none, fun l k => l.take k, id⟩
    (by intro m hm; rfl)).2
    ⟨fun i t => ⟨Json.arr [Json.str "Q", Json.str "A", Json.str "r"], rfl,
      "Q", [Json.str "A", Json.str "r"], rfl⟩,
     fun s => ⟨["F, Page 3"], rfl⟩⟩
    rfl rfl (by simp)
    (fun i l => List.Perm.refl l) (fun l => List.Perm.refl l)
    (by norm_num) (by norm_num) (by norm_num)

/-- `random.sample(l, k)` for `0 ≤ k ≤ len(l)`: `k` elements drawn from
`l`. -/
def SampleOK (O : CsvOracles) : Prop :=
  ∀ l k, k ≤ l.length → (O.sample l k).length = k ∧ ∀ q ∈ O.sample l k, q ∈ l

/-- The 8-field MCQ tuple shape. -/
def isMcqShape : Json → Bool
  | Json.arr l => l.length == 8
  | _ => false

/-- The 3-field open tuple shape. -/
def isOpenShape : Json → Bool
  | Json.arr l => l.length == 3
  | _ => false

theorem to_evaluation_format_mcq_shape (q : CSVQuestion) (h : q.type = "mcq") :
    isMcqShape q.to_evaluation_format = true ∧ isOpenShape q.to_evaluation_format = false := by
  unfold CSVQuestion.to_evaluation_format
  rw [if_pos h]
  exact ⟨rfl, rfl⟩

theorem to_evaluation_format_open_shape (q : CSVQuestion) (h : q.type ≠ "mcq") :
    isMcqShape q.to_evaluation_format = false ∧ isOpenShape q.to_evaluation_format = true := by
  unfold CSVQuestion.to_evaluation_format
  rw [if_neg h]
  exact ⟨rfl, rfl⟩

/-- All bank questions of one type pooled over the loaded modules. -/
def allOfType (questions_by_module : List (String × List CSVQuestion))
    (question_type : String) : List CSVQuestion :=
  (questions_by_module.map (fun m => m.2.filter (fun q => q.type == question_type))).flatten

theorem select_nonpositioning_ok (O : CsvOracles)
    (questions_by_module : List (String × List CSVQuestion))
    (question_type : String) (count : ℤ) (hs : SampleOK O) (hc : 0 ≤ count)
    (havail : count ≤ (allOfType questions_by_module question_type).length) :
    ∃ sel, select_random_questions_balanced O questions_by_module question_type count
      false = Except.ok sel ∧ sel.length = count.toNat ∧
      ∀ q ∈ sel, q.type = question_type := by
  have hk : count.toNat ≤ (allOfType questions_by_module question_type).length := by
    omega
  obtain ⟨hlen, hmem⟩ := hs (allOfType questions_by_module question_type) count.toNat hk
  refine ⟨O.sample (allOfType questions_by_module question_type) count.toNat, ?_, hlen, ?_⟩
  · unfold select_random_questions_balanced
    rw [if_pos (by simp)]
    dsimp only
    rw [if_neg (by push_neg; exact_mod_cast havail), if_neg (by omega)]
    rfl
  · intro q hq
    have hq' : q ∈ allOfType questions_by_module question_type := hmem q hq
    obtain ⟨x, hx, hqx⟩ := List.mem_flatten.1 hq'
    obtain ⟨mm, -, hmm⟩ := List.mem_map.1 hx
    rw [← hmm] at hqx
    have := List.of_mem_filter hqx
    simpa using this

theorem bumpIndices_length (idxs : List ℕ) :
    ∀ counts : List ℤ, (bumpIndices counts idxs).length = counts.length := by
  induction idxs with
  | nil => intro counts; rfl
  | cons i idxs ih =>
    intro counts
    show (bumpIndices (counts.set i (counts.getD i 0 + 1)) idxs).length = _
    rw [ih, List.length_set]

theorem distribute_two_length (N : ℕ) (w1 w2 : ℚ) (l : List ℤ)
    (h : distribute_question_counts N [w1, w2] = some l) : l.length = 2 := by
  unfold distribute_question_counts at h
  dsimp only at h
  split at h
  · have := Option.some.inj h
    rw [← this, bumpIndices_length]
    rfl
  · exact absurd h (by simp)

/-- C8: for every request served from the CSV bank, the mcq/open counts
used for selection are the hardcoded pairs (3, 2), (7, 3) and (10, 5)
when `num_questions` is 5, 10 or 15 — for *any* weight pair — and for
every other total they are exactly the largest-remainder apportionment
of the weights; with a well-behaved sampler and enough bank questions,
the returned mix realises those counts. -/
theorem csv_counts_hardcoded_or_apportioned (N : ℕ) (w1 w2 : ℚ) :
    (csv_mcq_open_counts 5 w1 w2 = some (3, 2) ∧
     csv_mcq_open_counts 10 w1 w2 = some (7, 3) ∧
     csv_mcq_open_counts 15 w1 w2 = some (10, 5)) ∧
    (∀ m o : ℤ, N ≠ 5 → N ≠ 10 → N ≠ 15 →
      (csv_mcq_open_counts N w1 w2 = some (m, o) ↔
        distribute_question_counts N [w1, w2] = some [m, o])) ∧
    (∀ (modules_topics : List (String × List String)) (language : String)
       (course_filter : Option String) (C : Collaborators) (R : EvalRng)
       (O : CsvOracles) (m o : ℤ),
      SampleOK O → (∀ l, List.Perm (O.qshuffle l) l) →
      csvQuestionsByModule modules_topics course_filter language O ≠ [] →
      csv_mcq_open_counts N w1 w2 = some (m, o) → 0 ≤ m → 0 ≤ o →
      m ≤ (allOfType (csvQuestionsByModule modules_topics course_filter language O)
        "mcq").length →
      o ≤ (allOfType (csvQuestionsByModule modules_topics course_filter language O)
        "open").length →
      ∃ res, evaluate_mixed_from_csv modules_topics N w1 w2 language false
        course_filter C R O = (Except.ok res, 0) ∧
        res.source = some "csv" ∧
        res.questions.countP isMcqShape = m.toNat ∧
        res.questions.countP isOpenShape = o.toNat) := by
  refine ⟨⟨rfl, rfl, rfl⟩, ?_, ?_⟩
  · intro m o h5 h10 h15
    unfold csv_mcq_open_counts
    rw [if_neg h15, if_neg h10, if_neg h5]
    cases hd : distribute_question_counts N [w1, w2] with
    | none => simp
    | some l =>
      have hl2 := distribute_two_length N w1 w2 l hd
      match l, hl2 with
      | [x, y], _ =>
        constructor
        · intro h
          have := Option.some.inj h
          rw [show x = m from congrArg Prod.fst this, show y = o from congrArg Prod.snd this]
        · intro h
          have := Option.some.inj h
          rw [show [x, y] = [m, o] from this]
  · intro modules_topics language course_filter C R O m o hs hshuf hne hcounts hm ho
      hmavail hoavail
    obtain ⟨sel_mcq, hselm, hlenm, htypem⟩ := select_nonpositioning_ok O
      (csvQuestionsByModule modules_topics course_filter language O) "mcq" m hs hm hmavail
    obtain ⟨sel_open, hselo, hleno, htypeo⟩ := select_nonpositioning_ok O
      (csvQuestionsByModule modules_topics course_filter language O) "open" o hs ho hoavail
    refine ⟨⟨(O.qshuffle (sel_mcq ++ sel_open)).map CSVQuestion.to_evaluation_format,
      some "csv",
      some (csvMissingModules modules_topics course_filter language O)⟩, ?_, rfl, ?_, ?_⟩
    · unfold evaluate_mixed_from_csv
      rw [if_neg (by simpa [List.isEmpty_iff] using hne), hcounts]
      dsimp only
      rw [hselm]
      dsimp only
      rw [hselo]
    · rw [List.countP_map, (hshuf (sel_mcq ++ sel_open)).countP_eq, List.countP_append]
      have hA : sel_mcq.countP (isMcqShape ∘ CSVQuestion.to_evaluation_format) =
          sel_mcq.length := by
        rw [List.countP_eq_length]
        intro q hq
        exact (to_evaluation_format_mcq_shape q (htypem q hq)).1
      have hB : sel_open.countP (isMcqShape ∘ CSVQuestion.to_evaluation_format) = 0 := by
        rw [List.countP_eq_zero]
        intro q hq
        have : q.type ≠ "mcq" := by
          rw [htypeo q hq]
          decide
        simpa using (to_evaluation_format_open_shape q this).1
      rw [hA, hB, hlenm]
      omega
    · rw [List.countP_map, (hshuf (sel_mcq ++ sel_open)).countP_eq, List.countP_append]
      have hA : sel_mcq.countP (isOpenShape ∘ CSVQuestion.to_evaluation_format) = 0 := by
        rw [List.countP_eq_zero]
        intro q hq
        simpa using (to_evaluation_format_mcq_shape q (htypem q hq)).2
      have hB : sel_open.countP (isOpenShape ∘ CSVQuestion.to_evaluation_format) =
          sel_open.length := by
        rw [List.countP_eq_length]
        intro q hq
        have : q.type ≠ "mcq" := by
          rw [htypeo q hq]
          decide
        exact (to_evaluation_format_open_shape q this).2
      rw [hA, hB, hleno]
      omega

/-- C8 (witness): a 5-question CSV request with weights summing to 1.8
still yields the hardcoded 3 MCQ / 2 open split. -/
theorem csv_counts_hardcoded_or_apportioned_witness :
    ∃ res, evaluate_mixed_from_csv [("M1", ["t"])] 5 ((9:ℚ)/10) ((9:ℚ)/10) "French"
      false none
      ⟨true, fun _ => "", fun _ => []⟩
      ⟨id, fun _ => id, id, fun _ => ⟨id, 0, id, 0⟩, id⟩
      ⟨fun _ _ _ => some
        [⟨"1", "q1", "mcq", ["a", "b", "c", "d"], "a", "f", ["r"]⟩,
         ⟨"2", "q2", "mcq", ["a", "b", "c", "d"], "a", "f", ["r"]⟩,
         ⟨"3", "q3", "mcq", ["a", "b", "c", "d"], "a", "f", ["r"]⟩,
         ⟨"4", "q4", "open", [], "a", "f", ["r"]⟩,
         ⟨"5", "q5", "open", [], "a", "f", ["r"]⟩],
       fun l k => l.take k, id⟩ =
      (Except.ok res, 0) ∧
      res.source = some "csv" ∧
      res.questions.countP isMcqShape = (3:ℤ).toNat ∧
      res.questions.countP isOpenShape = (2:ℤ).toNat :=
  (csv_counts_hardcoded_or_apportioned 5 ((9:ℚ)/10) ((9:ℚ)/10)).2.2
    [("M1", ["t"])] "French" none
    ⟨true, fun _ => "", fun _ => []⟩
    ⟨id, fun _ => id, id, fun _ => ⟨id, 0, id, 0⟩, id⟩
    ⟨fun _ _ _ => some
      [⟨"1", "q1", "mcq", ["a", "b", "c", "d"], "a", "f", ["r"]⟩,
       ⟨"2", "q2", "mcq", ["a", "b", "c", "d"], "a", "f", ["r"]⟩,
       ⟨"3", "q3", "mcq", ["a", "b", "c", "d"], "a", "f", ["r"]⟩,
       ⟨"4", "q4", "open", [], "a", "f", ["r"]⟩,
       ⟨"5", "q5", "open", [], "a", "f", ["r"]⟩],
     fun l k => l.take k, id⟩ 3 2
    (fun l k hk => ⟨by rw [List.length_take]; omega, fun q hq => List.mem_of_mem_take hq⟩)
    (fun l => List.Perm.refl l)
    (by decide) rfl (by decide) (by decide) (by decide) (by decide)

/-- Whether a service call ended in the spec's `ValidationError`
(`HTTPException(400, ...)`). -/
def resultIsValidationError {α : Type} : Except PyErr α × ℕ → Bool
  | (Except.error e, _) => e.isValidationB
  | _ => false

theorem select_error_not_validation (O : CsvOracles)
    (qbm : List (String × List CSVQuestion)) (qt : String) (count : ℤ) (pos : Bool)
    (e : PyErr)
    (h : select_random_questions_balanced O qbm qt count pos = Except.error e) :
    e.isValidationB = false := by
  unfold select_random_questions_balanced at h
  split at h
  · dsimp only at h
    split at h
    · exact absurd h (by simp)
    · split at h
      · rw [← Except.error.inj h]
        rfl
      · exact absurd h (by simp)
  · split at h
    · rw [← Except.error.inj h]
      rfl
    · exact absurd h (by simp)

theorem select_ok_of_nonneg (O : CsvOracles)
    (qbm : List (String × List CSVQuestion)) (qt : String) (count : ℤ) (pos : Bool)
    (hne : qbm ≠ []) (hc : 0 ≤ count) :
    ∃ sel, select_random_questions_balanced O qbm qt count pos = Except.ok sel := by
  unfold select_random_questions_balanced
  split
  · dsimp only
    split
    · exact ⟨_, rfl⟩
    · rw [if_neg (by omega)]
      exact ⟨_, rfl⟩
  · rw [if_neg (by simpa [List.isEmpty_iff] using hne)]
    exact ⟨_, rfl⟩

/-- C10 (amended): once at least one module's CSV loads, the weights are
never validated — no input produces an `HTTPException(400)`; for
`num_questions` in {5, 10, 15} the call returns normally for *every*
weight pair and its result is entirely independent of the weights.  (For
other totals the weights do flow into the apportionment, which can crash
with an `IndexError` — never a validation error — when the weights sum
far from 1, see the counterexample.) -/
theorem csv_hit_path_never_validates_weights
    (modules_topics : List (String × List String)) (language : String)
    (course_filter : Option String) (C : Collaborators) (R : EvalRng)
    (O : CsvOracles) (N : ℕ)
    (hne : csvQuestionsByModule modules_topics course_filter language O ≠ []) :
    (∀ (w1 w2 : ℚ) (is_positioning : Bool),
      resultIsValidationError (evaluate_mixed_from_csv modules_topics N w1 w2 language
        is_positioning course_filter C R O) = false) ∧
    (N = 5 ∨ N = 10 ∨ N = 15 →
      (∀ (w1 w2 w1' w2' : ℚ) (is_positioning : Bool),
        evaluate_mixed_from_csv modules_topics N w1 w2 language is_positioning
          course_filter C R O =
        evaluate_mixed_from_csv modules_topics N w1' w2' language is_positioning
          course_filter C R O) ∧
      (∀ (w1 w2 : ℚ) (is_positioning : Bool), ∃ res,
        evaluate_mixed_from_csv modules_topics N w1 w2 language is_positioning
          course_filter C R O = (Except.ok res, 0))) := by
  have hnemp : ¬ (csvQuestionsByModule modules_topics course_filter language O).isEmpty :=
    by simpa [List.isEmpty_iff] using hne
  constructor
  · intro w1 w2 is_positioning
    unfold evaluate_mixed_from_csv
    rw [if_neg hnemp]
    cases hcounts : csv_mcq_open_counts N w1 w2 with
    | none => rfl
    | some mo =>
      dsimp only
      cases hselm : select_random_questions_balanced O
          (csvQuestionsByModule modules_topics course_filter language O) "mcq" mo.1
          is_positioning with
      | error e =>
        show resultIsValidationError (Except.error e, 0) = false
        show e.isValidationB = false
        exact select_error_not_validation _ _ _ _ _ _ hselm
      | ok sel_mcq =>
        dsimp only
        cases hselo : select_random_questions_balanced O
            (csvQuestionsByModule modules_topics course_filter language O) "open" mo.2
            is_positioning with
        | error e =>
          show resultIsValidationError (Except.error e, 0) = false
          show e.isValidationB = false
          exact select_error_not_validation _ _ _ _ _ _ hselo
        | ok sel_open => rfl
  · intro hN
    constructor
    · intro w1 w2 w1' w2' is_positioning
      rcases hN with h | h | h <;> subst h <;>
        (unfold evaluate_mixed_from_csv
         dsimp only
         rw [if_neg hnemp, if_neg hnemp])
      · rw [show csv_mcq_open_counts 5 w1 w2 = some (3, 2) from rfl,
          show csv_mcq_open_counts 5 w1' w2' = some (3, 2) from rfl]
      · rw [show csv_mcq_open_counts 10 w1 w2 = some (7, 3) from rfl,
          show csv_mcq_open_counts 10 w1' w2' = some (7, 3) from rfl]
      · rw [show csv_mcq_open_counts 15 w1 w2 = some (10, 5) from rfl,
          show csv_mcq_open_counts 15 w1' w2' = some (10, 5) from rfl]
    · intro w1 w2 is_positioning
      have hcounts : ∃ m o : ℤ, csv_mcq_open_counts N w1 w2 = some (m, o) ∧
          0 ≤ m ∧ 0 ≤ o := by
        rcases hN with h | h | h <;> subst h
        · exact ⟨3, 2, rfl, by norm_num, by norm_num⟩
        · exact ⟨7, 3, rfl, by norm_num, by norm_num⟩
        · exact ⟨10, 5, rfl, by norm_num, by norm_num⟩
      obtain ⟨m, o, hc, hm, ho⟩ := hcounts
      obtain ⟨sel_mcq, hselm⟩ := select_ok_of_nonneg O
        (csvQuestionsByModule modules_topics course_filter language O) "mcq" m
        is_positioning hne hm
      obtain ⟨sel_open, hselo⟩ := select_ok_of_nonneg O
        (csvQuestionsByModule modules_topics course_filter language O) "open" o
        is_positioning hne ho
      refine ⟨⟨List.map CSVQuestion.to_evaluation_format (O.qshuffle (sel_mcq ++ sel_open)),
        some "csv", some (csvMissingModules modules_topics course_filter language O)⟩, ?_⟩
      unfold evaluate_mixed_from_csv
      rw [if_neg hnemp, hc]
      dsimp only
      rw [hselm]
      dsimp only
      rw [hselo]

/-- C10 counterexample apparatus: with one CSV hit and weights summing to
1/2 (which `evaluate_mixed` would reject with HTTP 400), the CSV path for
`num_questions = 20` feeds the weights into the apportionment, whose
remainder (10) exceeds the index list length (2): the call dies with an
`IndexError`, not a validation error — and for the hardcoded totals the
same weights are silently accepted. -/
theorem csv_weights_indexerror_counterexample :
    |(1:ℚ)/4 + 1/4 - 1| > 1/1000 ∧
    evaluate_mixed_from_csv [("M1", ["t"])] 20 ((1:ℚ)/4) ((1:ℚ)/4) "French" false none
      ⟨true, fun _ => "", fun _ => []⟩
      ⟨id, fun _ => id, id, fun _ => ⟨id, 0, id, 0⟩, id⟩
      ⟨fun _ _ _ => some [⟨"1", "q1", "mcq", ["a", "b", "c", "d"], "a", "f", ["r"]⟩],
       fun l k => l.take k, id⟩ =
      (Except.error (PyErr.indexError "list index out of range"), 0) := by
  constructor
  · rw [show |(1:ℚ)/4 + 1/4 - 1| = 1/2 by rw [abs_of_nonpos] <;> norm_num]
    norm_num
  · have hd : distribute_question_counts 20 [(1:ℚ)/4, 1/4] = none := by
      norm_num [distribute_question_counts, bumpIndices, List.insertionSort,
        List.orderedInsert]
    unfold evaluate_mixed_from_csv
    dsimp only
    rw [if_neg (by decide)]
    unfold csv_mcq_open_counts
    rw [if_neg (by decide), if_neg (by decide), if_neg (by decide), hd]

theorem csv_hit_path_never_validates_weights_witness :
    csvQuestionsByModule [("M1", ["t"])] none "French"
      ⟨fun _ _ _ => some [⟨"1", "q1", "mcq", ["a", "b", "c", "d"], "a", "f", ["r"]⟩],
       fun l k => l.take k, id⟩ ≠ [] ∧
    resultIsValidationError (evaluate_mixed_from_csv [("M1", ["t"])] 20 ((5:ℚ)) (-3)
      "French" false none
      ⟨true, fun _ => "", fun _ => []⟩
      ⟨id, fun _ => id, id, fun _ => ⟨id, 0, id, 0⟩, id⟩
      ⟨fun _ _ _ => some [⟨"1", "q1", "mcq", ["a", "b", "c", "d"], "a", "f", ["r"]⟩],
       fun l k => l.take k, id⟩) = false ∧
    (∃ res, evaluate_mixed_from_csv [("M1", ["t"])] 10 ((5:ℚ)) (-3)
      "French" true none
      ⟨true, fun _ => "", fun _ => []⟩
      ⟨id, fun _ => id, id, fun _ => ⟨id, 0, id, 0⟩, id⟩
      ⟨fun _ _ _ => some [⟨"1", "q1", "mcq", ["a", "b", "c", "d"], "a", "f", ["r"]⟩],
       fun l k => l.take k, id⟩ = (Except.ok res, 0)) :=
  ⟨by decide,
   (csv_hit_path_never_validates_weights [("M1", ["t"])] "French" none
      ⟨true, fun _ => "", fun _ => []⟩
      ⟨id, fun _ => id, id, fun _ => ⟨id, 0, id, 0⟩, id⟩
      ⟨fun _ _ _ => some [⟨"1", "q1", "mcq", ["a", "b", "c", "d"], "a", "f", ["r"]⟩],
       fun l k => l.take k, id⟩ 20 (by decide)).1 5 (-3) false,
   ((csv_hit_path_never_validates_weights [("M1", ["t"])] "French" none
      ⟨true, fun _ => "", fun _ => []⟩
      ⟨id, fun _ => id, id, fun _ => ⟨id, 0, id, 0⟩, id⟩
      ⟨fun _ _ _ => some [⟨"1", "q1", "mcq", ["a", "b", "c", "d"], "a", "f", ["r"]⟩],
       fun l k => l.take k, id⟩ 10 (by decide)).2
     (Or.inr (Or.inl rfl))).2 5 (-3) true⟩
